import Mathlib

/-!
Verification development for the luster single-pass bytecode compiler
(`src/compiler/mod.rs`, `src/compiler/operators.rs`).

The compiler is embedded shallowly: each Rust function becomes a Lean
function over an explicit `Compiler` state, in the `Except CompilerIssue`
monad.  Rust panics (`unimplemented!`, `unreachable!`, failed `assert!`,
out-of-bounds indexing, `unwrap`) are modelled as the distinguished
`CompilerIssue.crash` outcome, structured compiler errors as
`CompilerIssue.err`.  The mutually recursive statement/expression layer is
driven by a fuel parameter (structural recursion on fuel); running out of
fuel is the distinguished `CompilerIssue.outOfFuel` outcome, so any `.ok`
or `.err`/`.crash` result is a faithful result of the source recursion.

Types whose defining files are not part of the provided sources
(`Value`, `OpCode`, `VarCount`, `Opt254`, the register allocator, the
constant-value wrapper, the parser syntax tree) are modelled from the
specification; each such definition carries a `Modelled from the spec`
comment.  Identifier and string bytes are modelled as Lean `String`s.
-/

set_option maxHeartbeats 1000000

namespace Luster

/-- The structured compiler error categories of `CompilerError` in
`src/compiler/mod.rs`. -/
inductive CompilerError where
  | Registers
  | UpValues
  | FixedParameters
  | Functions
  | Constants
  | OpCodes
  | DuplicateLabel
  | GotoInvalid
  | JumpLocal
  | JumpOverflow
deriving DecidableEq, Inhabited

/-- Every possible non-success outcome of running the embedded compiler:
a structured `CompilerError`, a Rust panic (crash), or fuel exhaustion of
the embedding (not a behaviour of the source program). -/
inductive CompilerIssue where
  | err (e : CompilerError)
  | crash (msg : String)
  | outOfFuel
deriving DecidableEq, Inhabited

/-- Modelled from the spec (section 3, `value.rs` is external to the
provided sources): tagged union over Nil, Boolean, Integer (i64),
Number (f64, carried as its 64-bit pattern), String. -/
inductive Value where
  | nil
  | boolean (b : Bool)
  | integer (i : Int)
  | number (bits : Nat)
  | string (s : String)
deriving DecidableEq, Inhabited

/-- Modelled from the spec: Lua truthiness — nil and false are falsy,
everything else truthy. -/
def Value.as_bool : Value → Bool
  | .nil => false
  | .boolean b => b
  | _ => true

/-- Bit pattern of IEEE-754 negative zero. -/
def negZeroBits : Nat := 0x8000000000000000

/-- Modelled from the spec (4.2): the key normalisation imposed by the
constant-pool wrapper — `+0` and `-0` collapse, NaNs are compared by bit
pattern, everything else is structural. -/
def normKey : Value → Value
  | .number bits => .number (if bits = negZeroBits then 0 else bits)
  | v => v

/-- Modelled from the spec (4.2): total equality on values imposed by the
`ConstantValue` wrapper of the constant pool. -/
def constEq (v w : Value) : Bool :=
  normKey v == normKey w

/-- Whether a 64-bit pattern encodes an IEEE-754 NaN. -/
def isNaNBits (bits : Nat) : Bool :=
  ((bits >>> 52) &&& 0x7FF) = 0x7FF && (bits &&& 0xFFFFFFFFFFFFF) ≠ 0

/-- Modelled from the spec: the partial equality of `Value` used by
constant folding of `==` — IEEE semantics on numbers (NaN unequal to
itself, `+0 = -0`), structural elsewhere, distinct tags unequal. -/
def valuePrimEq (v w : Value) : Bool :=
  match v, w with
  | .number a, .number b =>
    if isNaNBits a || isNaNBits b then false
    else (if a = negZeroBits then 0 else a) == (if b = negZeroBits then 0 else b)
  | .number _, _ => false
  | _, .number _ => false
  | v, w => v == w

/-- Wrap an unbounded integer into the i64 range. -/
def wrapI64 (x : Int) : Int :=
  ((x + 2 ^ 63) % 2 ^ 64) - 2 ^ 63

/-- Modelled from the spec (4.3, scenario A): the value addition primitive
used by constant folding.  Integer addition wraps to i64; other operand
shapes are conservatively left unfolded (the defining `value.rs` is not
part of the provided sources). -/
def Value.add (v w : Value) : Option Value :=
  match v, w with
  | .integer a, .integer b => some (.integer (wrapI64 (a + b)))
  | _, _ => none

/-- Cast of a nonnegative machine integer to u8, as `num_traits::cast`. -/
def castU8 (n : Nat) : Option Nat :=
  if n ≤ 255 then some n else none

/-- Cast of a nonnegative machine integer to u16, as `num_traits::cast`. -/
def castU16 (n : Nat) : Option Nat :=
  if n ≤ 65535 then some n else none

/-- Modelled from the spec (section 6): `VarCount`, a small-integer
encoding supporting an exact count or a variable (forward-all) count. -/
inductive VarCount where
  | variable
  | constant (n : Nat)
deriving DecidableEq, Inhabited

/-- Modelled from the spec: `VarCount::try_constant`, fallible because the
encoding stores `count + 1` in a u8. -/
def VarCount.try_constant (n : Nat) : Option VarCount :=
  if n ≤ 254 then some (.constant n) else none

/-- Modelled from the spec (section 6): `Opt254` is a value in 0..=254
with a distinguished none sentinel; here `Option Nat`.  `try_some` fails
on 255. -/
def opt254TrySome (n : Nat) : Option (Option Nat) :=
  if n ≤ 254 then some (some n) else none

/-- Modelled from the spec (section 3): upvalue descriptors. -/
inductive UpValueDescriptor where
  | ParentLocal (register : Nat)
  | Outer (upvalue_index : Nat)
  | Environment
deriving DecidableEq, Inhabited

/-- Modelled from the spec (section 6, `opcode.rs` is external): the
opcode set the compiler emits.  Register, upvalue, constant and prototype
indices are carried as `Nat`; jump offsets as `Int`; `close_upvalues` as
`Option Nat` (the `Opt254`). -/
inductive OpCode where
  | Move (dest source : Nat)
  | LoadConstant (dest constant : Nat)
  | LoadBool (dest : Nat) (value skip_next : Bool)
  | LoadNil (dest count : Nat)
  | NewTable (dest : Nat)
  | GetTableR (dest table key : Nat)
  | GetTableC (dest table key : Nat)
  | SetTableRR (table key value : Nat)
  | SetTableRC (table key value : Nat)
  | SetTableCR (table key value : Nat)
  | SetTableCC (table key value : Nat)
  | GetUpTableR (dest table key : Nat)
  | GetUpTableC (dest table key : Nat)
  | SetUpTableRR (table key value : Nat)
  | SetUpTableRC (table key value : Nat)
  | SetUpTableCR (table key value : Nat)
  | SetUpTableCC (table key value : Nat)
  | GetUpValue (source dest : Nat)
  | SetUpValue (source dest : Nat)
  | Call (func : Nat) (args returns : VarCount)
  | Return (start : Nat) (count : VarCount)
  | VarArgs (dest : Nat) (count : VarCount)
  | Jump (offset : Int) (close_upvalues : Option Nat)
  | Test (value : Nat) (is_true : Bool)
  | TestSet (dest value : Nat) (is_true : Bool)
  | Closure (proto dest : Nat)
  | NumericForPrep (base : Nat) (jump : Int)
  | NumericForLoop (base : Nat) (jump : Int)
  | GenericForCall (base var_count : Nat)
  | GenericForLoop (base : Nat) (jump : Int)
  | EqRR (skip_if : Bool) (left right : Nat)
  | EqRC (skip_if : Bool) (left right : Nat)
  | EqCR (skip_if : Bool) (left right : Nat)
  | EqCC (skip_if : Bool) (left right : Nat)
  | Not (dest source : Nat)
  | AddRR (dest left right : Nat)
  | AddRC (dest left right : Nat)
  | AddCR (dest left right : Nat)
  | AddCC (dest left right : Nat)
deriving DecidableEq, Inhabited

/-- The compiled function prototype (`FunctionProto` of `function.rs`,
modelled from the spec, section 6). -/
inductive FunctionProto where
  | mk (fixed_params : Nat) (has_varargs : Bool) (stack_size : Nat)
      (constants : List Value) (opcodes : List OpCode)
      (upvalues : List UpValueDescriptor) (prototypes : List FunctionProto)

def FunctionProto.fixed_params : FunctionProto → Nat
  | .mk x _ _ _ _ _ _ => x

def FunctionProto.has_varargs : FunctionProto → Bool
  | .mk _ x _ _ _ _ _ => x

def FunctionProto.stack_size : FunctionProto → Nat
  | .mk _ _ x _ _ _ _ => x

def FunctionProto.constants : FunctionProto → List Value
  | .mk _ _ _ x _ _ _ => x

def FunctionProto.opcodes : FunctionProto → List OpCode
  | .mk _ _ _ _ x _ _ => x

def FunctionProto.upvalues : FunctionProto → List UpValueDescriptor
  | .mk _ _ _ _ _ x _ => x

def FunctionProto.prototypes : FunctionProto → List FunctionProto
  | .mk _ _ _ _ _ _ x => x

instance : Inhabited FunctionProto := ⟨.mk 0 false 0 [] [] [] []⟩

/-- Modelled from the spec (`parser.rs` is external): unary operators. -/
inductive UnaryOperator where
  | Not
  | Minus
  | BitNot
  | Len
deriving DecidableEq, Inhabited

/-- Modelled from the spec (`parser.rs` is external): binary operators. -/
inductive BinaryOperator where
  | Add
  | Sub
  | Mul
  | Mod
  | Pow
  | Div
  | IDiv
  | BitAnd
  | BitOr
  | BitXor
  | ShiftLeft
  | ShiftRight
  | Concat
  | NotEqual
  | Equal
  | LessThan
  | LessEqual
  | GreaterThan
  | GreaterEqual
  | And
  | Or
deriving DecidableEq, Inhabited

/-- Binary operators which map directly to a single opcode
(`operators.rs`). -/
inductive SimpleBinOp where
  | Add
  | Sub
  | Mul
  | Mod
  | Pow
  | Div
  | IDiv
  | BitAnd
  | BitOr
  | BitXor
  | ShiftLeft
  | ShiftRight
deriving DecidableEq, Inhabited

/-- Binary operators which map to Eq / LessThan / LessEqual operations
combined with Jump and LoadBool (`operators.rs`). -/
inductive ComparisonBinOp where
  | NotEqual
  | Equal
  | LessThan
  | LessEqual
  | GreaterThan
  | GreaterEqual
deriving DecidableEq, Inhabited

/-- The short-circuiting binary operators `and` and `or`
(`operators.rs`). -/
inductive ShortCircuitBinOp where
  | And
  | Or
deriving DecidableEq, Inhabited

/-- Categorized `BinaryOperator` (`operators.rs`). -/
inductive BinOpCategory where
  | Simple (op : SimpleBinOp)
  | Comparison (op : ComparisonBinOp)
  | ShortCircuit (op : ShortCircuitBinOp)
  | Concat
deriving DecidableEq, Inhabited

/-- Embedding of `categorize_binop` of `operators.rs`. -/
def categorize_binop : BinaryOperator → BinOpCategory
  | .Add => .Simple .Add
  | .Sub => .Simple .Sub
  | .Mul => .Simple .Mul
  | .Mod => .Simple .Mod
  | .Pow => .Simple .Pow
  | .Div => .Simple .Div
  | .IDiv => .Simple .IDiv
  | .BitAnd => .Simple .BitAnd
  | .BitOr => .Simple .BitOr
  | .BitXor => .Simple .BitXor
  | .ShiftLeft => .Simple .ShiftLeft
  | .ShiftRight => .Simple .ShiftRight
  | .Concat => .Concat
  | .NotEqual => .Comparison .NotEqual
  | .Equal => .Comparison .Equal
  | .LessThan => .Comparison .LessThan
  | .LessEqual => .Comparison .LessEqual
  | .GreaterThan => .Comparison .GreaterThan
  | .GreaterEqual => .Comparison .GreaterEqual
  | .And => .ShortCircuit .And
  | .Or => .ShortCircuit .Or

/-- Embedding of `RegisterOrConstant` of `operators.rs`: a register index or an 8-bit
constant index. -/
inductive RegisterOrConstant where
  | Register (r : Nat)
  | Constant (c : Nat)
deriving DecidableEq, Inhabited

/-- Embedding of `simple_binop_opcode` of `operators.rs`: only `Add` is implemented;
the other simple binops hit a `panic!`, modelled as a crash outcome. -/
def simple_binop_opcode (op : SimpleBinOp) (dest : Nat)
    (left right : RegisterOrConstant) : Except CompilerIssue OpCode :=
  match op with
  | .Add =>
    match left, right with
    | .Register l, .Register r => .ok (.AddRR dest l r)
    | .Register l, .Constant r => .ok (.AddRC dest l r)
    | .Constant l, .Register r => .ok (.AddCR dest l r)
    | .Constant l, .Constant r => .ok (.AddCC dest l r)
  | _ => .error (.crash "unsupported binary operator")

/-- Embedding of `simple_binop_const_fold` of `operators.rs`: only `Add` folds. -/
def simple_binop_const_fold (op : SimpleBinOp) (left right : Value) :
    Option Value :=
  match op with
  | .Add => left.add right
  | _ => none

/-- Embedding of `comparison_binop_opcode` of `operators.rs`: `Equal` maps to the `Eq`
opcode family, `NotEqual` to the same family with `skip_if` inverted;
the remaining comparisons hit a `panic!`, modelled as a crash outcome. -/
def comparison_binop_opcode (op : ComparisonBinOp)
    (left right : RegisterOrConstant) (skip_if : Bool) :
    Except CompilerIssue OpCode :=
  match op with
  | .Equal =>
    match left, right with
    | .Register l, .Register r => .ok (.EqRR skip_if l r)
    | .Register l, .Constant r => .ok (.EqRC skip_if l r)
    | .Constant l, .Register r => .ok (.EqCR skip_if l r)
    | .Constant l, .Constant r => .ok (.EqCC skip_if l r)
  | .NotEqual =>
    match left, right with
    | .Register l, .Register r => .ok (.EqRR (!skip_if) l r)
    | .Register l, .Constant r => .ok (.EqRC (!skip_if) l r)
    | .Constant l, .Register r => .ok (.EqCR (!skip_if) l r)
    | .Constant l, .Constant r => .ok (.EqCC (!skip_if) l r)
  | _ => .error (.crash "unsupported binary operator")

/-- Embedding of `comparison_binop_const_fold` of `operators.rs`: only `Equal` folds,
using the partial equality of values. -/
def comparison_binop_const_fold (op : ComparisonBinOp)
    (left right : Value) : Option Value :=
  match op with
  | .Equal => some (.boolean (valuePrimEq left right))
  | _ => none

/-- Embedding of `unop_opcode` of `operators.rs`: only `Not` is implemented. -/
def unop_opcode (op : UnaryOperator) (dest source : Nat) :
    Except CompilerIssue OpCode :=
  match op with
  | .Not => .ok (.Not dest source)
  | _ => .error (.crash "unimplemented unary operator")

/-- Embedding of `unop_const_fold` of `operators.rs`: only `Not` folds. -/
def unop_const_fold (op : UnaryOperator) (v : Value) : Option Value :=
  match op with
  | .Not => some (.boolean (!v.as_bool))
  | _ => none

mutual

/-- Modelled from the spec (section 6, `parser.rs` is external): a chunk
is a block. -/
inductive Chunk where
  | mk (block : Block)

/-- A block: statements plus an optional trailing return statement. -/
inductive Block where
  | mk (statements : List Statement) (return_statement : Option ReturnStatement)

/-- Statement variants, as matched by `Compiler::statement`. -/
inductive Statement where
  | If (s : IfStatement)
  | While (s : WhileStatement)
  | Do (b : Block)
  | For (s : ForStatement)
  | Repeat (s : RepeatStatement)
  | Function (s : FunctionStatement)
  | LocalFunction (s : FunctionStatement)
  | LocalStatement (s : LocalStatement)
  | Label (name : String)
  | Break
  | Goto (name : String)
  | FunctionCall (s : FunctionCallStatement)
  | Assignment (s : AssignmentStatement)

/-- A return statement: the list of returned expressions. -/
inductive ReturnStatement where
  | mk (returns : List Expression)

/-- An expression: a head plus a tail of (binary operator, expression)
pairs. -/
inductive Expression where
  | mk (head : HeadExpression) (tail : List (BinaryOperator × Expression))

/-- Head of an expression: simple, or a unary operator application. -/
inductive HeadExpression where
  | Simple (e : SimpleExpression)
  | UnaryOperator (op : UnaryOperator) (e : Expression)

/-- Simple expressions. -/
inductive SimpleExpression where
  | Float (bits : Nat)
  | Integer (i : Int)
  | String (s : String)
  | Nil
  | True
  | False
  | VarArgs
  | TableConstructor (t : TableConstructor)
  | Function (f : FunctionDefinition)
  | Suffixed (e : SuffixedExpression)

/-- A table constructor; the compiler only inspects whether the field
list is empty, so fields are opaque. -/
inductive TableConstructor where
  | mk (fields : List Unit)

/-- A function definition: parameters, varargs flag, body. -/
inductive FunctionDefinition where
  | mk (parameters : List String) (has_varargs : Bool) (body : Block)

/-- A suffixed expression: primary plus suffix chain. -/
inductive SuffixedExpression where
  | mk (primary : PrimaryExpression) (suffixes : List SuffixPart)

/-- A primary expression: a name or a parenthesised expression. -/
inductive PrimaryExpression where
  | Name (name : String)
  | GroupedExpression (e : Expression)

/-- A suffix part: field access or call. -/
inductive SuffixPart where
  | Field (f : FieldSuffix)
  | Call (c : CallSuffix)

/-- A field suffix: `.name` or `[expr]`. -/
inductive FieldSuffix where
  | Named (name : String)
  | Indexed (e : Expression)

/-- A call suffix: `(args)` or `:method(args)`. -/
inductive CallSuffix where
  | Function (args : List Expression)
  | Method (name : String) (args : List Expression)

/-- A function-call statement: suffixed head plus the final call
suffix. -/
inductive FunctionCallStatement where
  | mk (head : SuffixedExpression) (call : CallSuffix)

/-- A local declaration: names and initialising values. -/
inductive LocalStatement where
  | mk (names : List String) (values : List Expression)

/-- A function statement: dotted/method function name plus definition. -/
inductive FunctionStatement where
  | mk (name : FunctionName) (definition : FunctionDefinition)

/-- A function name: base name, field chain, optional method selector. -/
inductive FunctionName where
  | mk (name : String) (fields : List String) (method : Option String)

/-- An if statement: first branch, elseif branches, optional else. -/
inductive IfStatement where
  | mk (if_part : Expression × Block) (else_if_parts : List (Expression × Block))
      (else_part : Option Block)

/-- A while statement. -/
inductive WhileStatement where
  | mk (condition : Expression) (block : Block)

/-- A repeat-until statement. -/
inductive RepeatStatement where
  | mk (body : Block) (until_ : Expression)

/-- A for statement: numeric or generic. -/
inductive ForStatement where
  | Numeric (name : String) (initial limit : Expression)
      (step : Option Expression) (body : Block)
  | Generic (names : List String) (arguments : List Expression) (body : Block)

/-- An assignment statement: targets and values. -/
inductive AssignmentStatement where
  | mk (targets : List AssignmentTarget) (values : List Expression)

/-- An assignment target: a plain name, or a table field. -/
inductive AssignmentTarget where
  | Name (name : String)
  | Field (table : SuffixedExpression) (field : FieldSuffix)

end

def Chunk.block : Chunk → Block
  | .mk b => b

def Block.statements : Block → List Statement
  | .mk s _ => s

def Block.return_statement : Block → Option ReturnStatement
  | .mk _ r => r

def ReturnStatement.returns : ReturnStatement → List Expression
  | .mk r => r

def Expression.head : Expression → HeadExpression
  | .mk h _ => h

def Expression.tail : Expression → List (BinaryOperator × Expression)
  | .mk _ t => t

def TableConstructor.fields : TableConstructor → List Unit
  | .mk f => f

def FunctionDefinition.parameters : FunctionDefinition → List String
  | .mk p _ _ => p

def FunctionDefinition.has_varargs : FunctionDefinition → Bool
  | .mk _ v _ => v

def FunctionDefinition.body : FunctionDefinition → Block
  | .mk _ _ b => b

def SuffixedExpression.primary : SuffixedExpression → PrimaryExpression
  | .mk p _ => p

def SuffixedExpression.suffixes : SuffixedExpression → List SuffixPart
  | .mk _ s => s

def FunctionCallStatement.head : FunctionCallStatement → SuffixedExpression
  | .mk h _ => h

def FunctionCallStatement.call : FunctionCallStatement → CallSuffix
  | .mk _ c => c

def LocalStatement.names : LocalStatement → List String
  | .mk n _ => n

def LocalStatement.values : LocalStatement → List Expression
  | .mk _ v => v

def FunctionStatement.name : FunctionStatement → FunctionName
  | .mk n _ => n

def FunctionStatement.definition : FunctionStatement → FunctionDefinition
  | .mk _ d => d

def FunctionName.name : FunctionName → String
  | .mk n _ _ => n

def FunctionName.fields : FunctionName → List String
  | .mk _ f _ => f

def FunctionName.method : FunctionName → Option String
  | .mk _ _ m => m

def IfStatement.if_part : IfStatement → Expression × Block
  | .mk i _ _ => i

def IfStatement.else_if_parts : IfStatement → List (Expression × Block)
  | .mk _ e _ => e

def IfStatement.else_part : IfStatement → Option Block
  | .mk _ _ e => e

def WhileStatement.condition : WhileStatement → Expression
  | .mk c _ => c

def WhileStatement.block : WhileStatement → Block
  | .mk _ b => b

def RepeatStatement.body : RepeatStatement → Block
  | .mk b _ => b

def RepeatStatement.until_ : RepeatStatement → Expression
  | .mk _ u => u

def AssignmentStatement.targets : AssignmentStatement → List AssignmentTarget
  | .mk t _ => t

def AssignmentStatement.values : AssignmentStatement → List Expression
  | .mk _ v => v

/-- Modelled from the spec (4.1, `register_allocator.rs` is external):
a stack of 256 virtual registers with a set of allocated slots, the
current top and the high-water mark. -/
structure RegisterAllocator where
  stack_top : Nat := 0
  stack_size : Nat := 0
  allocated : List Nat := []
deriving DecidableEq, Inhabited

def RegisterAllocator.is_allocated (ra : RegisterAllocator) (r : Nat) : Bool :=
  ra.allocated.contains r

/-- Modelled from the spec: `allocate` returns the lowest free slot below
`stack_top`, extending `stack_top` if none is free; fails at 256 slots. -/
def RegisterAllocator.allocate (ra : RegisterAllocator) :
    Option (Nat × RegisterAllocator) :=
  match ((List.range ra.stack_top).filter (fun r => !ra.allocated.contains r)).head? with
  | some r =>
    some (r, { ra with allocated := r :: ra.allocated,
                       stack_size := max ra.stack_size (r + 1) })
  | none =>
    if ra.stack_top < 256 then
      some (ra.stack_top,
        { stack_top := ra.stack_top + 1,
          stack_size := max ra.stack_size (ra.stack_top + 1),
          allocated := ra.stack_top :: ra.allocated })
    else none

/-- Modelled from the spec: `push n` allocates `n` contiguous slots at the
top of the stack and returns the base. -/
def RegisterAllocator.push (ra : RegisterAllocator) (n : Nat) :
    Option (Nat × RegisterAllocator) :=
  if ra.stack_top + n ≤ 256 then
    some (ra.stack_top,
      { stack_top := ra.stack_top + n,
        stack_size := max ra.stack_size (ra.stack_top + n),
        allocated := ra.allocated ++ List.range' ra.stack_top n })
  else none

/-- Lower a stack top past trailing free slots. -/
def lowerTopGo (allocated : List Nat) : Nat → Nat
  | 0 => 0
  | t + 1 => if allocated.contains t then t + 1 else lowerTopGo allocated t

/-- Modelled from the spec: `free r` marks `r` free and, when `r` was the
topmost slot, lowers `stack_top` past any trailing free slots. -/
def RegisterAllocator.free (ra : RegisterAllocator) (r : Nat) :
    RegisterAllocator :=
  let a := ra.allocated.filter (fun x => x != r)
  { ra with allocated := a,
            stack_top := if r + 1 = ra.stack_top then lowerTopGo a ra.stack_top
                         else ra.stack_top }

/-- Modelled from the spec: `pop_to n` frees all slots with index at least
`n`. -/
def RegisterAllocator.pop_to (ra : RegisterAllocator) (n : Nat) :
    RegisterAllocator :=
  { ra with allocated := ra.allocated.filter (fun x => decide (x < n)),
            stack_top := min ra.stack_top n }

/-- Embedding of `JumpLabel` of `src/compiler/mod.rs`. -/
inductive JumpLabel where
  | Unique (id : Nat)
  | Named (name : String)
  | Break
deriving DecidableEq, Inhabited

/-- Embedding of `BlockDescriptor` of `src/compiler/mod.rs`. -/
structure BlockDescriptor where
  stack_bottom : Nat
  bottom_jump_target : Nat
  owns_upvalues : Bool
deriving DecidableEq, Inhabited

/-- Embedding of `JumpTarget` of `src/compiler/mod.rs`. -/
structure JumpTarget where
  label : JumpLabel
  instruction : Nat
  stack_top : Nat
  block_index : Nat
deriving DecidableEq, Inhabited

/-- Embedding of `PendingJump` of `src/compiler/mod.rs`. -/
structure PendingJump where
  target : JumpLabel
  instruction : Nat
  block_index : Nat
  stack_top : Nat
  close_upvalues : Bool
deriving DecidableEq, Inhabited

/-- Embedding of `CompilerFunction` of `src/compiler/mod.rs`: the per-function
compilation state.  The constant table (a `HashMap` keyed by the
total-equality wrapper in the source) is modelled as an association
list with `constEq` keys. -/
structure CompilerFunction where
  constants : List Value := []
  constant_table : List (Value × Nat) := []
  upvalues : List (String × UpValueDescriptor) := []
  prototypes : List FunctionProto := []
  register_allocator : RegisterAllocator := {}
  has_varargs : Bool := false
  fixed_params : Nat := 0
  locals : List (String × Nat) := []
  blocks : List BlockDescriptor := []
  unique_jump_id : Nat := 0
  jump_targets : List JumpTarget := []
  pending_jumps : List PendingJump := []
  opcodes : List OpCode := []
deriving Inhabited

/-- Embedding of `Compiler` of `src/compiler/mod.rs`: the stack of in-progress function
contexts (the external allocator handle is not modelled). -/
structure Compiler where
  current_function : CompilerFunction
  upper_functions : List CompilerFunction
deriving Inhabited

/-- Embedding of `VariableDescriptor` of `src/compiler/mod.rs`. -/
inductive VariableDescriptor where
  | Local (register : Nat)
  | UpValue (idx : Nat)
  | Global (name : String)
deriving DecidableEq, Inhabited

/-- Embedding of `ExprDescriptor` of `src/compiler/mod.rs`: the deferred expression
descriptors of the expression materializer. -/
inductive ExprDescriptor where
  | Register (register : Nat) (is_temporary : Bool)
  | UpValue (idx : Nat)
  | Value (v : Value)
  | VarArgs
  | Not (e : ExprDescriptor)
  | FunctionCall (func : ExprDescriptor) (args : List ExprDescriptor)
  | Comparison (left : ExprDescriptor) (op : ComparisonBinOp) (right : ExprDescriptor)
  | ShortCircuitBinOp (left : ExprDescriptor) (op : ShortCircuitBinOp) (right : Expression)
deriving Inhabited

/-- Embedding of `ExprDestination` of `src/compiler/mod.rs`. -/
inductive ExprDestination where
  | Register (r : Nat)
  | AllocateNew
  | PushNew
deriving DecidableEq, Inhabited

/-- Append an opcode to the current function. -/
def pushOp (op : OpCode) (c : Compiler) : Compiler :=
  let f := c.current_function
  { c with current_function := { f with opcodes := f.opcodes ++ [op] } }

/-- Replace the register allocator of the current function. -/
def withRA (ra : RegisterAllocator) (c : Compiler) : Compiler :=
  { c with current_function := { c.current_function with register_allocator := ra } }

/-- Indexing of the function-context stack, as `get_function` inside
`Compiler::find_variable`: index `upper_functions.len()` is the current
function, lower indices are outer functions. -/
def getF (c : Compiler) (i : Nat) : CompilerFunction :=
  if i = c.upper_functions.length then c.current_function
  else (c.upper_functions.get? i).getD default

/-- Mutation counterpart of `getF`. -/
def setF (c : Compiler) (i : Nat) (f : CompilerFunction) : Compiler :=
  if i = c.upper_functions.length then { c with current_function := f }
  else { c with upper_functions := c.upper_functions.set i f }

/-- The name of the implicit environment variable. -/
def eENV : String := "_ENV"

/-- The reverse-order first-match marking loop of
`Compiler::find_variable` (lines 1057-1062 of `mod.rs`): running over the
blocks innermost-first, mark the first block whose `stack_bottom` is at
most the captured register, then stop. -/
def markRevGo (r : Nat) : List BlockDescriptor → List BlockDescriptor
  | [] => []
  | b :: rest =>
    if b.stack_bottom ≤ r then { b with owns_upvalues := true } :: rest
    else b :: markRevGo r rest

/-- Marking of the blocks of an outer function owning a captured local,
as performed by `Compiler::find_variable`: the block list is walked in
reverse (innermost block first). -/
def markUpvalBlocks (blocks : List BlockDescriptor) (r : Nat) :
    List BlockDescriptor :=
  (markRevGo r blocks.reverse).reverse

/-- Reverse-order scan of a function's locals for a name, as the inner
loop of `Compiler::find_variable`. -/
def fvLocalsScan (locals : List (String × Nat)) (name : String) : Option Nat :=
  (locals.reverse.find? (fun p => p.1 == name)).map (·.2)

/-- The inward `Outer` upvalue chain creation of `Compiler::find_variable`:
append an `Outer` upvalue for the name to each of `cnt` consecutive
function contexts starting at index `k`, threading the upvalue index. -/
def pushOuterChain (name : String) : Nat → Nat → Nat → Compiler →
    Except CompilerIssue (Nat × Compiler)
  | 0, _, u, c => .ok (u, c)
  | cnt + 1, k, u, c =>
    let fk := getF c k
    let upv := fk.upvalues ++ [(name, .Outer u)]
    let c := setF c k { fk with upvalues := upv }
    match castU8 (upv.length - 1) with
    | some u' => pushOuterChain name cnt (k + 1) u' c
    | none => .error (.err .UpValues)

/-- The capture path of `Compiler::find_variable`, taken when the name is
found as a local (register `register`) of the strictly enclosing function
context `i`: mark the owning block of that context, append a
`ParentLocal` upvalue to context `i + 1`, then build the `Outer` chain
down to the current context. -/
def fvCapture (name : String) (cur i register : Nat) (c : Compiler) :
    Except CompilerIssue (Option VariableDescriptor × Compiler) :=
  let f := getF c i
  let c := setF c i { f with blocks := markUpvalBlocks f.blocks register }
  let f1 := getF c (i + 1)
  let upv := f1.upvalues ++ [(name, .ParentLocal register)]
  let c := setF c (i + 1) { f1 with upvalues := upv }
  match castU8 (upv.length - 1) with
  | none => .error (.err .UpValues)
  | some u0 => do
    let (u, c) ← pushOuterChain name (cur + 1 - (i + 2)) (i + 2) u0 c
    .ok (some (.UpValue u), c)

/-- The upvalue-hit path of `Compiler::find_variable`: the name is
upvalue `j` of context `i`; an `Outer` chain is built down to the current
context when `i` is not the current one. -/
def fvFromUpvalue (name : String) (cur i j : Nat) (c : Compiler) :
    Except CompilerIssue (Option VariableDescriptor × Compiler) :=
  match castU8 j with
  | none => .error (.err .UpValues)
  | some u0 =>
    if i = cur then .ok (some (.UpValue u0), c)
    else do
      let (u, c) ← pushOuterChain name (cur + 1 - (i + 1)) (i + 1) u0 c
      .ok (some (.UpValue u), c)

/-- The lazy `_ENV` installation of `Compiler::find_variable`: at the
top-level context, when `_ENV` is looked up and the context has no
upvalues yet, the implicit `Environment` upvalue is appended. -/
def fvInstallEnv (i : Nat) (name : String) (c : Compiler) : Compiler :=
  if i = 0 && name == eENV && (getF c 0).upvalues.isEmpty then
    let f0 := getF c 0
    setF c 0 { f0 with upvalues := f0.upvalues ++ [(eENV, .Environment)] }
  else c

/-- One level of the outward walk of `Compiler::find_variable`: look the
name up at function-context level `i` (locals first, then — after the
lazy top-level `_ENV` installation — upvalues).  Returns `none` when the
name is not visible at this level. -/
def fvStep (name : String) (cur i : Nat) (c : Compiler) :
    Except CompilerIssue (Option VariableDescriptor × Compiler) :=
  match fvLocalsScan (getF c i).locals name with
  | some register =>
    if i = cur then .ok (some (.Local register), c)
    else fvCapture name cur i register c
  | none =>
    let c := fvInstallEnv i name c
    match (getF c i).upvalues.findIdx? (fun p => p.1 == name) with
    | some j => fvFromUpvalue name cur i j c
    | none => .ok (none, c)

/-- The outward loop of `Compiler::find_variable`, from level `i` down to
level 0; a miss at level 0 resolves to a global. -/
def fvLoop (name : String) (cur : Nat) : Nat → Compiler →
    Except CompilerIssue (VariableDescriptor × Compiler)
  | 0, c => do
    let (r, c) ← fvStep name cur 0 c
    match r with
    | some d => .ok (d, c)
    | none => .ok (.Global name, c)
  | i + 1, c => do
    let (r, c) ← fvStep name cur (i + 1) c
    match r with
    | some d => .ok (d, c)
    | none => fvLoop name cur i c

/-- Embedding of `Compiler::find_variable`. -/
def find_variable (name : String) (c : Compiler) :
    Except CompilerIssue (VariableDescriptor × Compiler) :=
  fvLoop name c.upper_functions.length c.upper_functions.length c

/-- Embedding of `Compiler::get_environment`: resolve `_ENV`; the `Global` outcome is
the `unreachable!` branch of the source, modelled as a crash. -/
def get_environment (c : Compiler) :
    Except CompilerIssue (ExprDescriptor × Compiler) := do
  let (d, c) ← find_variable eENV c
  match d with
  | .Local register => .ok (.Register register false, c)
  | .UpValue u => .ok (.UpValue u, c)
  | .Global _ => .error (.crash "there should always be an ENV upvalue")

/-- Embedding of `Compiler::unique_jump_label`; the checked u64 increment overflow is a
crash. -/
def unique_jump_label (c : Compiler) :
    Except CompilerIssue (JumpLabel × Compiler) :=
  let f := c.current_function
  if f.unique_jump_id + 1 < 2 ^ 64 then
    .ok (.Unique f.unique_jump_id,
      { c with current_function := { f with unique_jump_id := f.unique_jump_id + 1 } })
  else .error (.crash "unique jump id overflow")

/-- Embedding of `Compiler::enter_block`. -/
def enter_block (c : Compiler) : Compiler :=
  let f := c.current_function
  { c with current_function :=
      { f with blocks := f.blocks ++
          [⟨f.register_allocator.stack_top, f.jump_targets.length, false⟩] } }

/-- The local-freeing loop of `Compiler::exit_block`, over the reversed
locals list: free every local whose register is at least the exited
block's `stack_bottom`. -/
def popLocalsGo (bottom : Nat) :
    RegisterAllocator → List (String × Nat) →
    RegisterAllocator × List (String × Nat)
  | ra, [] => (ra, [])
  | ra, (n, r) :: rest =>
    if bottom ≤ r then popLocalsGo bottom (ra.free r) rest
    else (ra, (n, r) :: rest)

/-- The pending-jump re-anchoring loop of `Compiler::exit_block`, over the
reversed pending-jump list: every pending jump recorded inside the exited
block is lowered to the enclosing block and the current stack top, and
accumulates whether an exited block owned upvalues.  The source asserts
that the recorded stack top never increases. -/
def reanchorGo (nblocks top : Nat) (owns : Bool) :
    List PendingJump → Except CompilerIssue (List PendingJump)
  | [] => .ok []
  | pj :: rest =>
    if pj.block_index < nblocks then .ok (pj :: rest)
    else if pj.stack_top < top then
      .error (.crash "pending jump stack top below current")
    else do
      let rest' ← reanchorGo nblocks top owns rest
      .ok ({ pj with block_index := nblocks - 1, stack_top := top,
                     close_upvalues := pj.close_upvalues || owns } :: rest')

/-- Embedding of `Compiler::exit_block`. -/
def exit_block (c : Compiler) : Except CompilerIssue (Unit × Compiler) := do
  let f := c.current_function
  match f.blocks.getLast? with
  | none => .error (.crash "no block to exit")
  | some last_block =>
    let blocks := f.blocks.dropLast
    let (ra, locRev) :=
      popLocalsGo last_block.stack_bottom f.register_allocator f.locals.reverse
    let f := { f with blocks := blocks, register_allocator := ra,
                      locals := locRev.reverse,
                      jump_targets := f.jump_targets.take last_block.bottom_jump_target }
    let f ←
      if last_block.owns_upvalues && !blocks.isEmpty then
        match (castU8 last_block.stack_bottom).bind opt254TrySome with
        | some cl => pure { f with opcodes := f.opcodes ++ [.Jump 0 cl] }
        | none => .error (.err .Registers)
      else pure f
    let f ←
      if !blocks.isEmpty then do
        let pr ← reanchorGo blocks.length ra.stack_top last_block.owns_upvalues
          f.pending_jumps.reverse
        pure { f with pending_jumps := pr.reverse }
      else pure f
    .ok ((), { c with current_function := f })

/-- Embedding of `jump_offset` of `src/compiler/mod.rs`: backward distances are
negated after a cast of the positive distance to i16, so the most
negative i16 offset is rejected. -/
def jump_offset (source target : Nat) : Option Int :=
  if source < target then
    if target - (source + 1) ≤ 32767 then
      some ((target - (source + 1) : Nat) : Int)
    else none
  else
    if (source + 1) - target ≤ 32767 then
      some (-(((source + 1) - target : Nat) : Int))
    else none

/-- Embedding of `Compiler::jump`: a backward jump to a known target is emitted with
its offset and any required upvalue close; an unknown (forward) target
emits the placeholder `Jump 0 none` and records a pending jump. -/
def jump (target : JumpLabel) (c : Compiler) :
    Except CompilerIssue (Unit × Compiler) := do
  let f := c.current_function
  let jmp_inst := f.opcodes.length
  let current_stack_top := f.register_allocator.stack_top
  if f.blocks.length = 0 then .error (.crash "no current block")
  else
    let current_block_index := f.blocks.length - 1
    match f.jump_targets.reverse.find? (fun jt => jt.label == target) with
    | some jt =>
      if current_stack_top < jt.stack_top then
        .error (.crash "jump target stack top above current")
      else if current_block_index < jt.block_index then
        .error (.crash "jump target block above current")
      else
        let needs := decide (jt.stack_top < current_stack_top) &&
          ((List.range' jt.block_index (current_block_index + 1 - jt.block_index)).any
            (fun i => ((f.blocks.get? i).getD default).owns_upvalues))
        match jump_offset jmp_inst jt.instruction with
        | none => .error (.err .JumpOverflow)
        | some off => do
          let close ←
            if needs then
              match (castU8 jt.stack_top).bind opt254TrySome with
              | some cl => pure cl
              | none => .error (.err .Registers)
            else pure none
          .ok ((), pushOp (.Jump off close) c)
    | none =>
      let c := pushOp (.Jump 0 none) c
      let f := c.current_function
      .ok ((), { c with current_function :=
        { f with pending_jumps := f.pending_jumps ++
            [⟨target, jmp_inst, current_block_index, current_stack_top, false⟩] } })

/-- The reverse duplicate-label scan of `Compiler::jump_target`: within
the jump targets of the current block, is the label already defined? -/
def dupScanRev (cb : Nat) (lbl : JumpLabel) : List JumpTarget → Bool
  | [] => false
  | jt :: rest =>
    if jt.block_index < cb then false
    else if jt.label == lbl then true
    else dupScanRev cb lbl rest

/-- Resolution of one pending jump against a declared label in
`Compiler::jump_target`: the recorded stack top must not be below the
target's (assertion), a strictly smaller recorded stack top is the
`JumpLocal` error, and the placeholder `Jump 0 none` is patched with the
computed offset and, when required, an upvalue close at the target's
stack top. -/
def patchJump (target_instruction cur_top : Nat) (opcodes : List OpCode)
    (pj : PendingJump) : Except CompilerIssue (List OpCode) :=
  if cur_top < pj.stack_top then
    .error (.crash "pending jump stack top above target")
  else if pj.stack_top < cur_top then .error (.err .JumpLocal)
  else
    match opcodes.get? pj.instruction with
    | some (.Jump off cl) =>
      if off = 0 && cl = none then
        match jump_offset pj.instruction target_instruction with
        | none => .error (.err .JumpOverflow)
        | some off' => do
          let close ←
            if pj.close_upvalues then
              match (castU8 cur_top).bind opt254TrySome with
              | some cl' => pure cl'
              | none => .error (.err .Registers)
            else pure none
          .ok (opcodes.set pj.instruction (.Jump off' close))
      else .error (.crash "jump instruction is not a placeholder jump instruction")
    | _ => .error (.crash "jump instruction is not a placeholder jump instruction")

/-- Embedding of `Compiler::jump_target`: declare a label at the current instruction,
reject duplicates within the current block, and resolve every pending
jump of the current block with this label. -/
def jump_target (lbl : JumpLabel) (c : Compiler) :
    Except CompilerIssue (Unit × Compiler) := do
  let f := c.current_function
  let target_instruction := f.opcodes.length
  let current_stack_top := f.register_allocator.stack_top
  if f.blocks.length = 0 then .error (.crash "no current block")
  else
    let cb := f.blocks.length - 1
    if dupScanRev cb lbl f.jump_targets.reverse then
      .error (.err .DuplicateLabel)
    else
      let jts := f.jump_targets ++ [⟨lbl, target_instruction, current_stack_top, cb⟩]
      if f.pending_jumps.any (fun pj => decide (cb < pj.block_index)) then
        .error (.crash "pending jump above current block")
      else
        let resolving := f.pending_jumps.filter
          (fun pj => pj.block_index == cb && pj.target == lbl)
        let remaining := f.pending_jumps.filter
          (fun pj => !(pj.block_index == cb && pj.target == lbl))
        let ops ← resolving.foldlM (patchJump target_instruction current_stack_top) f.opcodes
        .ok ((), { c with current_function :=
          { f with jump_targets := jts, pending_jumps := remaining, opcodes := ops } })

/-- Lookup in the modelled constant table, keyed by the total equality
`constEq`. -/
def lookupConstant (table : List (Value × Nat)) (v : Value) : Option Nat :=
  (table.find? (fun p => constEq p.1 v)).map (·.2)

/-- Embedding of `Compiler::get_constant` on the per-function state: deduplicate by the
wrapper equality, otherwise append the value at index `constants.len()`,
failing with `Constants` when that index does not fit in u16. -/
def CompilerFunction.get_constant (f : CompilerFunction) (v : Value) :
    Except CompilerIssue (Nat × CompilerFunction) :=
  match lookupConstant f.constant_table v with
  | some i => .ok (i, f)
  | none =>
    match castU16 f.constants.length with
    | some i =>
      .ok (i, { f with constants := f.constants ++ [v],
                       constant_table := f.constant_table ++ [(v, i)] })
    | none => .error (.err .Constants)

/-- Embedding of `Compiler::get_constant` lifted to the compiler state. -/
def get_constant (v : Value) (c : Compiler) :
    Except CompilerIssue (Nat × Compiler) := do
  let (i, f) ← c.current_function.get_constant v
  .ok (i, { c with current_function := f })

/-- Embedding of `CompilerFunction::start`: a fresh function context with the fixed
parameters pushed as the first locals (the result of the register push is
discarded by the source). -/
def CompilerFunction.start (parameters : List String) (has_varargs : Bool) :
    Except CompilerIssue CompilerFunction :=
  match castU8 parameters.length with
  | none => .error (.err .FixedParameters)
  | some fixed_params =>
    let ra : RegisterAllocator := {}
    let ra := match ra.push fixed_params with
      | some (_, ra') => ra'
      | none => ra
    .ok { register_allocator := ra,
          has_varargs := has_varargs,
          fixed_params := fixed_params,
          locals := (List.range fixed_params).map
            (fun i => (parameters.getD i "", i)) }

/-- Embedding of `CompilerFunction::finish`: append the implicit trailing return, check
(assert) that only the parameter locals remain, free them, check (assert)
that the register stack is exactly balanced, reject unresolved pending
jumps, and build the prototype. -/
def CompilerFunction.finish (f : CompilerFunction) :
    Except CompilerIssue FunctionProto :=
  let f := { f with opcodes := f.opcodes ++ [OpCode.Return 0 (VarCount.constant 0)] }
  if f.locals.length ≠ f.fixed_params then
    .error (.crash "locals are not exactly the parameters at finish")
  else
    let ra : RegisterAllocator := f.locals.foldl
      (fun (ra : RegisterAllocator) p => ra.free p.2) f.register_allocator
    if ra.stack_top ≠ 0 then .error (.crash "register leak detected")
    else if !f.pending_jumps.isEmpty then .error (.err .GotoInvalid)
    else .ok (.mk f.fixed_params f.has_varargs ra.stack_size f.constants
      f.opcodes (f.upvalues.map (·.2)) f.prototypes)

/-- Embedding of `new_destination` inside `Compiler::expr_discharge`. -/
def newDestination (dest : ExprDestination) (c : Compiler) :
    Except CompilerIssue (Nat × Compiler) :=
  match dest with
  | .Register r => .ok (r, c)
  | .AllocateNew =>
    match c.current_function.register_allocator.allocate with
    | some (r, ra) => .ok (r, withRA ra c)
    | none => .error (.err .Registers)
  | .PushNew =>
    match c.current_function.register_allocator.push 1 with
    | some (r, ra) => .ok (r, withRA ra c)
    | none => .error (.err .Registers)

/-- Run the current function's allocator `allocate`, failing with the
`Registers` error. -/
def allocateReg (c : Compiler) : Except CompilerIssue (Nat × Compiler) :=
  match c.current_function.register_allocator.allocate with
  | some (r, ra) => .ok (r, withRA ra c)
  | none => .error (.err .Registers)

/-- Run the current function's allocator `push n`, failing with the
`Registers` error. -/
def pushRegs (n : Nat) (c : Compiler) : Except CompilerIssue (Nat × Compiler) :=
  match c.current_function.register_allocator.push n with
  | some (r, ra) => .ok (r, withRA ra c)
  | none => .error (.err .Registers)

/-- Append declared locals to the current function. -/
def appendLocals (ls : List (String × Nat)) (c : Compiler) : Compiler :=
  { c with current_function :=
      { c.current_function with locals := c.current_function.locals ++ ls } }

/-- Whether a statement is a label statement (for the trailing-labels
rule of `Compiler::block_statements`). -/
def isLabelStatement : Statement → Bool
  | .Label _ => true
  | _ => false

mutual

/-- Embedding of `Compiler::block`. -/
def Compiler.block : Nat → Block → Compiler → Except CompilerIssue (Unit × Compiler)
  | 0, _, _ => .error .outOfFuel
  | fuel + 1, b, c => do
    let c := enter_block c
    let (_, c) ← block_statements fuel b c
    exit_block c

/-- Embedding of `Compiler::block_statements`: the trailing run of label statements of
a return-less block is compiled outside the block's local scope. -/
def block_statements : Nat → Block → Compiler → Except CompilerIssue (Unit × Compiler)
  | 0, _, _ => .error .outOfFuel
  | fuel + 1, b, c =>
    match b.return_statement with
    | some ret => do
      let (_, c) ← statementList fuel b.statements c
      return_statement fuel ret c
    | none => do
      let n := (b.statements.reverse.takeWhile isLabelStatement).length
      let front := b.statements.take (b.statements.length - n)
      let trailing := b.statements.drop (b.statements.length - n)
      let c := enter_block c
      let (_, c) ← statementList fuel front c
      let (_, c) ← exit_block c
      statementList fuel trailing c

/-- Sequential compilation of a statement list. -/
def statementList : Nat → List Statement → Compiler → Except CompilerIssue (Unit × Compiler)
  | 0, _, _ => .error .outOfFuel
  | _ + 1, [], c => .ok ((), c)
  | fuel + 1, s :: rest, c => do
    let (_, c) ← statement fuel s c
    statementList fuel rest c

/-- Embedding of `Compiler::statement`. -/
def statement : Nat → Statement → Compiler → Except CompilerIssue (Unit × Compiler)
  | 0, _, _ => .error .outOfFuel
  | fuel + 1, s, c =>
    match s with
    | .If i => if_statement fuel i c
    | .While w => while_statement fuel w c
    | .Do b => Compiler.block fuel b c
    | .For f => for_statement fuel f c
    | .Repeat r => repeat_statement fuel r c
    | .Function f => function_statement fuel f c
    | .LocalFunction f => local_function fuel f c
    | .LocalStatement l => local_statement fuel l c
    | .Label name => jump_target (.Named name) c
    | .Break => jump .Break c
    | .Goto name => jump (.Named name) c
    | .FunctionCall f => function_call fuel f c
    | .Assignment a => assignment fuel a c

/-- Embedding of `Compiler::return_statement`. -/
def return_statement : Nat → ReturnStatement → Compiler → Except CompilerIssue (Unit × Compiler)
  | 0, _, _ => .error .outOfFuel
  | fuel + 1, rs, c =>
    let rets := rs.returns
    if rets.isEmpty then
      .ok ((), pushOp (.Return 0 (.constant 0)) c)
    else
      match castU8 c.current_function.register_allocator.stack_top with
      | none => .error (.err .Registers)
      | some ret_start => do
        let (_, c) ← returnPushGo fuel (rets.take (rets.length - 1)) c
        match rets.getLast? with
        | none => .error (.crash "nonempty returns expected")
        | some last => do
          let (lastExpr, c) ← expression fuel last c
          let (ret_count, c) ←
            match lastExpr with
            | .FunctionCall func args => do
              let (_, c) ← expr_function_call fuel func args .variable c
              pure (VarCount.variable, c)
            | e => do
              let (_, c) ← expr_discharge fuel e .PushNew c
              match (castU8 rets.length).bind VarCount.try_constant with
              | some vc => pure (vc, c)
              | none => .error (.err .Registers)
          let c := pushOp (.Return ret_start ret_count) c
          .ok ((), withRA (c.current_function.register_allocator.pop_to ret_start) c)

/-- The leading-values loop of `Compiler::return_statement`: push each of
the first `n - 1` returned values. -/
def returnPushGo : Nat → List Expression → Compiler → Except CompilerIssue (Unit × Compiler)
  | 0, _, _ => .error .outOfFuel
  | _ + 1, [], c => .ok ((), c)
  | fuel + 1, e :: rest, c => do
    let (d, c) ← expression fuel e c
    let (_, c) ← expr_discharge fuel d .PushNew c
    returnPushGo fuel rest c

/-- Embedding of `Compiler::if_statement`. -/
def if_statement : Nat → IfStatement → Compiler → Except CompilerIssue (Unit × Compiler)
  | 0, _, _ => .error .outOfFuel
  | fuel + 1, s, c => do
    let (end_label, c) ← unique_jump_label c
    let (next_label, c) ← unique_jump_label c
    let (next_label, c) ←
      ifBranches fuel (s.if_part :: s.else_if_parts) s.else_part.isSome end_label next_label c
    let (_, c) ← jump_target next_label c
    let c ←
      match s.else_part with
      | some b => do
        let (_, c) ← Compiler.block fuel b c
        pure c
      | none => pure c
    let (_, c) ← jump_target end_label c
    .ok ((), c)

/-- The branch loop of `Compiler::if_statement`: one iteration per
`if`/`elseif` arm; the last arm only jumps to the shared end label when
an `else` follows. -/
def ifBranches : Nat → List (Expression × Block) → Bool → JumpLabel → JumpLabel →
    Compiler → Except CompilerIssue (JumpLabel × Compiler)
  | 0, _, _, _, _, _ => .error .outOfFuel
  | _ + 1, [], _, _, next_label, c => .ok (next_label, c)
  | fuel + 1, (e, b) :: rest, hasElse, end_label, next_label, c => do
    let (_, c) ← jump_target next_label c
    let (next_label, c) ← unique_jump_label c
    let (cond, c) ← expression fuel e c
    let (_, c) ← expr_test fuel cond true c
    let (_, c) ← jump next_label c
    let c := enter_block c
    let (_, c) ← block_statements fuel b c
    let (_, c) ←
      if !rest.isEmpty || hasElse then jump end_label c else .ok ((), c)
    let (_, c) ← exit_block c
    ifBranches fuel rest hasElse end_label next_label c

/-- Embedding of `Compiler::while_statement`. -/
def while_statement : Nat → WhileStatement → Compiler → Except CompilerIssue (Unit × Compiler)
  | 0, _, _ => .error .outOfFuel
  | fuel + 1, s, c => do
    let (start_label, c) ← unique_jump_label c
    let (end_label, c) ← unique_jump_label c
    let (_, c) ← jump_target start_label c
    let (cond, c) ← expression fuel s.condition c
    let (_, c) ← expr_test fuel cond true c
    let (_, c) ← jump end_label c
    let c := enter_block c
    let (_, c) ← block_statements fuel s.block c
    let (_, c) ← jump start_label c
    let (_, c) ← jump_target .Break c
    let (_, c) ← exit_block c
    jump_target end_label c

/-- Embedding of `Compiler::repeat_statement`: the body and the `until` expression
share a scope, and the trailing-labels rule is not applied. -/
def repeat_statement : Nat → RepeatStatement → Compiler → Except CompilerIssue (Unit × Compiler)
  | 0, _, _ => .error .outOfFuel
  | fuel + 1, s, c => do
    let (start_label, c) ← unique_jump_label c
    let c := enter_block c
    let c := enter_block c
    let (_, c) ← jump_target start_label c
    let (_, c) ← statementList fuel s.body.statements c
    let c ←
      match s.body.return_statement with
      | some ret => do
        let (_, c) ← return_statement fuel ret c
        pure c
      | none => pure c
    let (cond, c) ← expression fuel s.until_ c
    let (_, c) ← expr_test fuel cond true c
    let (_, c) ← jump start_label c
    let (_, c) ← exit_block c
    let (_, c) ← jump_target .Break c
    exit_block c

/-- Embedding of `Compiler::for_statement`, numeric and generic. -/
def for_statement : Nat → ForStatement → Compiler → Except CompilerIssue (Unit × Compiler)
  | 0, _, _ => .error .outOfFuel
  | fuel + 1, .Numeric name initial limit step body, c => do
    let (einit, c) ← expression fuel initial c
    let (base, c) ← expr_discharge fuel einit .PushNew c
    let (elimit, c) ← expression fuel limit c
    let (_, c) ← expr_discharge fuel elimit .PushNew c
    let (estep, c) ←
      match step with
      | some stepE => expression fuel stepE c
      | none => .ok (ExprDescriptor.Value (.integer 1), c)
    let (_, c) ← expr_discharge fuel estep .PushNew c
    let for_prep_index := c.current_function.opcodes.length
    let c := pushOp (.NumericForPrep base 0) c
    let c := enter_block c
    let c := enter_block c
    let (loop_var, c) ← pushRegs 1 c
    let c := appendLocals [(name, loop_var)] c
    let (_, c) ← block_statements fuel body c
    let (_, c) ← exit_block c
    let for_loop_index := c.current_function.opcodes.length
    let off1 ←
      match jump_offset for_loop_index (for_prep_index + 1) with
      | some o => pure o
      | none => .error (.err .JumpOverflow)
    let c := pushOp (.NumericForLoop base off1) c
    let c ←
      match c.current_function.opcodes.get? for_prep_index with
      | some (.NumericForPrep pbase pjump) =>
        if pbase == base && pjump == 0 then
          match jump_offset for_prep_index for_loop_index with
          | some o =>
            pure { c with current_function := { c.current_function with
              opcodes := c.current_function.opcodes.set for_prep_index
                (.NumericForPrep pbase o) } }
          | none => .error (.err .JumpOverflow)
        else .error (.crash "instruction is not placeholder NumericForPrep")
      | _ => .error (.crash "instruction is not placeholder NumericForPrep")
    let (_, c) ← jump_target .Break c
    let (_, c) ← exit_block c
    .ok ((), withRA (c.current_function.register_allocator.pop_to base) c)
  | fuel + 1, .Generic names arguments body, c => do
    let (loop_label, c) ← unique_jump_label c
    match arguments with
    | [] => .error (.crash "generic for needs at least one argument")
    | a0 :: argRest => do
      let (base, c) ←
        if argRest.isEmpty then do
          let (args, c) ← expression fuel a0 c
          expr_push_count fuel args 3 c
        else do
          let (iter, c) ← expression fuel a0 c
          let (top, c) ← expr_discharge fuel iter .PushNew c
          let (st, c) ←
            match argRest.get? 0 with
            | some stateE => expression fuel stateE c
            | none => .ok (ExprDescriptor.Value .nil, c)
          let (_, c) ← expr_discharge fuel st .PushNew c
          let (ctrl, c) ←
            match argRest.get? 1 with
            | some ctrlE => expression fuel ctrlE c
            | none => .ok (ExprDescriptor.Value .nil, c)
          let (_, c) ← expr_discharge fuel ctrl .PushNew c
          .ok (top, c)
      let c := enter_block c
      let c := enter_block c
      let name_count ←
        match castU8 names.length with
        | some n => pure n
        | none => .error (.err .Registers)
      let (names_reg, c) ← pushRegs name_count c
      let c := appendLocals
        ((List.range name_count).map (fun i => (names.getD i "", names_reg + i))) c
      let (_, c) ← jump loop_label c
      let start_inst := c.current_function.opcodes.length
      let (_, c) ← block_statements fuel body c
      let (_, c) ← exit_block c
      let (_, c) ← jump_target loop_label c
      let vc ←
        match castU8 names.length with
        | some n => pure n
        | none => .error (.err .Registers)
      let c := pushOp (.GenericForCall base vc) c
      let loop_inst := c.current_function.opcodes.length
      let off ←
        match jump_offset loop_inst start_inst with
        | some o => pure o
        | none => .error (.err .JumpOverflow)
      let c := pushOp (.GenericForLoop (base + 2) off) c
      let (_, c) ← jump_target .Break c
      let (_, c) ← exit_block c
      .ok ((), withRA (c.current_function.register_allocator.pop_to base) c)

/-- Embedding of `Compiler::function_statement`: function name field chains and method
definitions are unimplemented and crash. -/
def function_statement : Nat → FunctionStatement → Compiler → Except CompilerIssue (Unit × Compiler)
  | 0, _, _ => .error .outOfFuel
  | fuel + 1, s, c =>
    if !s.name.fields.isEmpty then .error (.crash "no function name fields support")
    else if s.name.method.isSome then .error (.crash "no method support")
    else do
      let (proto, c) ← new_prototype fuel s.definition c
      let (env, c) ← get_environment c
      let name := ExprDescriptor.Value (.string s.name.name)
      let (dest, c) ← allocateReg c
      let c := pushOp (.Closure proto dest) c
      let closure := ExprDescriptor.Register dest true
      let (env, name, closure, c) ← set_table fuel env name closure c
      let (_, c) ← expr_discard fuel env c
      let (_, c) ← expr_discard fuel name c
      let (_, c) ← expr_discard fuel closure c
      .ok ((), c)

/-- Embedding of `Compiler::local_statement`. -/
def local_statement : Nat → LocalStatement → Compiler → Except CompilerIssue (Unit × Compiler)
  | 0, _, _ => .error .outOfFuel
  | fuel + 1, s, c =>
    if s.values.isEmpty then
      match castU8 s.names.length with
      | none => .error (.err .Registers)
      | some count => do
        let (dest, c) ← pushRegs count c
        let c := pushOp (.LoadNil dest count) c
        let c := appendLocals
          ((List.range s.names.length).map (fun i => (s.names.getD i "", dest + i))) c
        .ok ((), c)
    else
      localValuesGo fuel s.names s.values 0 c

/-- The value loop of `Compiler::local_statement`: values beyond the
names are discarded, the final value fans out over the remaining names,
other values are pushed as one local each. -/
def localValuesGo : Nat → List String → List Expression → Nat → Compiler →
    Except CompilerIssue (Unit × Compiler)
  | 0, _, _, _, _ => .error .outOfFuel
  | fuel + 1, names, values, i, c =>
    match values.get? i with
    | none => .ok ((), c)
    | some vexpr => do
      let (e, c) ← expression fuel vexpr c
      let name_len := names.length
      let val_len := values.length
      if name_len ≤ i then do
        let (_, c) ← expr_discard fuel e c
        localValuesGo fuel names values (i + 1) c
      else if i = val_len - 1 then do
        let names_left ←
          match castU8 (1 + name_len - val_len) with
          | some n => pure n
          | none => .error (.err .Registers)
        let (dest, c) ← expr_push_count fuel e names_left c
        let c := appendLocals ((List.range names_left).map
          (fun j => (names.getD (val_len - 1 + j) "", dest + j))) c
        localValuesGo fuel names values (i + 1) c
      else do
        let (reg, c) ← expr_discharge fuel e .PushNew c
        let c := appendLocals [(names.getD i "", reg)] c
        localValuesGo fuel names values (i + 1) c

/-- Embedding of `Compiler::function_call` (the statement): method calls are
unimplemented and crash. -/
def function_call : Nat → FunctionCallStatement → Compiler → Except CompilerIssue (Unit × Compiler)
  | 0, _, _ => .error .outOfFuel
  | fuel + 1, s, c => do
    let (func_expr, c) ← suffixed_expression fuel s.head c
    match s.call with
    | .Function args => do
      let (arg_exprs, c) ← exprList fuel args c
      let (_, c) ← expr_function_call fuel func_expr arg_exprs (.constant 0) c
      .ok ((), c)
    | .Method _ _ => .error (.crash "method call unsupported")

/-- Compilation of an expression list into descriptors, in order. -/
def exprList : Nat → List Expression → Compiler →
    Except CompilerIssue (List ExprDescriptor × Compiler)
  | 0, _, _ => .error .outOfFuel
  | _ + 1, [], c => .ok ([], c)
  | fuel + 1, e :: rest, c => do
    let (d, c) ← expression fuel e c
    let (ds, c) ← exprList fuel rest c
    .ok (d :: ds, c)

/-- Embedding of `Compiler::assignment`. -/
def assignment : Nat → AssignmentStatement → Compiler → Except CompilerIssue (Unit × Compiler)
  | 0, _, _ => .error .outOfFuel
  | fuel + 1, s, c => assignGo fuel s.targets s.values 0 c

/-- The target loop of `Compiler::assignment`: missing values become nil;
locals are assigned by direct discharge, upvalues by `SetUpValue`,
globals and fields through `set_table`. -/
def assignGo : Nat → List AssignmentTarget → List Expression → Nat → Compiler →
    Except CompilerIssue (Unit × Compiler)
  | 0, _, _, _, _ => .error .outOfFuel
  | fuel + 1, targets, values, i, c =>
    match targets.get? i with
    | none => .ok ((), c)
    | some target => do
      let (e, c) ←
        match values.get? i with
        | some v => expression fuel v c
        | none => .ok (ExprDescriptor.Value .nil, c)
      match target with
      | .Name name => do
        let (d, c) ← find_variable name c
        match d with
        | .Local dest => do
          let (_, c) ← expr_discharge fuel e (.Register dest) c
          assignGo fuel targets values (i + 1) c
        | .UpValue dest => do
          let (source, e, c) ← expr_any_register fuel e c
          let c := pushOp (.SetUpValue source dest) c
          let (_, c) ← expr_discard fuel e c
          assignGo fuel targets values (i + 1) c
        | .Global gname => do
          let (env, c) ← get_environment c
          let key := ExprDescriptor.Value (.string gname)
          let (env, key, e, c) ← set_table fuel env key e c
          let (_, c) ← expr_discard fuel env c
          let (_, c) ← expr_discard fuel key c
          let (_, c) ← expr_discard fuel e c
          assignGo fuel targets values (i + 1) c
      | .Field table field => do
        let (tbl, c) ← suffixed_expression fuel table c
        let (key, c) ←
          match field with
          | .Named name => .ok (ExprDescriptor.Value (.string name), c)
          | .Indexed idx => expression fuel idx c
        let (tbl, key, e, c) ← set_table fuel tbl key e c
        let (_, c) ← expr_discard fuel tbl c
        let (_, c) ← expr_discard fuel key c
        let (_, c) ← expr_discard fuel e c
        assignGo fuel targets values (i + 1) c

/-- Embedding of `Compiler::local_function`: function name field chains and method
definitions are unimplemented and crash. -/
def local_function : Nat → FunctionStatement → Compiler → Except CompilerIssue (Unit × Compiler)
  | 0, _, _ => .error .outOfFuel
  | fuel + 1, s, c =>
    if !s.name.fields.isEmpty then .error (.crash "no function name fields support")
    else if s.name.method.isSome then .error (.crash "no method support")
    else do
      let (proto, c) ← new_prototype fuel s.definition c
      let (dest, c) ← pushRegs 1 c
      let c := pushOp (.Closure proto dest) c
      .ok ((), appendLocals [(s.name.name, dest)] c)

/-- Embedding of `Compiler::expression`: fold the binary-operator tail onto the
head. -/
def expression : Nat → Expression → Compiler →
    Except CompilerIssue (ExprDescriptor × Compiler)
  | 0, _, _ => .error .outOfFuel
  | fuel + 1, e, c => do
    let (d, c) ← head_expression fuel e.head c
    exprTailGo fuel d e.tail c

/-- The tail loop of `Compiler::expression`. -/
def exprTailGo : Nat → ExprDescriptor → List (BinaryOperator × Expression) →
    Compiler → Except CompilerIssue (ExprDescriptor × Compiler)
  | 0, _, _, _ => .error .outOfFuel
  | _ + 1, d, [], c => .ok (d, c)
  | fuel + 1, d, (binop, right) :: rest, c => do
    let (d, c) ← binary_operator fuel d binop right c
    exprTailGo fuel d rest c

/-- Embedding of `Compiler::head_expression`. -/
def head_expression : Nat → HeadExpression → Compiler →
    Except CompilerIssue (ExprDescriptor × Compiler)
  | 0, _, _ => .error .outOfFuel
  | fuel + 1, h, c =>
    match h with
    | .Simple se => simple_expression fuel se c
    | .UnaryOperator op e => do
      let (d, c) ← expression fuel e c
      unary_operator fuel op d c

/-- Embedding of `Compiler::simple_expression`. -/
def simple_expression : Nat → SimpleExpression → Compiler →
    Except CompilerIssue (ExprDescriptor × Compiler)
  | 0, _, _ => .error .outOfFuel
  | fuel + 1, se, c =>
    match se with
    | .Float bits => .ok (.Value (.number bits), c)
    | .Integer i => .ok (.Value (.integer i), c)
    | .String s => .ok (.Value (.string s), c)
    | .Nil => .ok (.Value .nil, c)
    | .True => .ok (.Value (.boolean true), c)
    | .False => .ok (.Value (.boolean false), c)
    | .VarArgs => .ok (.VarArgs, c)
    | .TableConstructor t => table_constructor fuel t c
    | .Function f => function_expression fuel f c
    | .Suffixed s => suffixed_expression fuel s c

/-- Embedding of `Compiler::table_constructor`: non-empty constructors are
unimplemented and crash; empty ones allocate a register and emit
`NewTable`. -/
def table_constructor : Nat → TableConstructor → Compiler →
    Except CompilerIssue (ExprDescriptor × Compiler)
  | 0, _, _ => .error .outOfFuel
  | _ + 1, t, c =>
    if !t.fields.isEmpty then
      .error (.crash "only empty table constructors supported")
    else do
      let (dest, c) ← allocateReg c
      .ok (.Register dest true, pushOp (.NewTable dest) c)

/-- Embedding of `Compiler::function_expression`. -/
def function_expression : Nat → FunctionDefinition → Compiler →
    Except CompilerIssue (ExprDescriptor × Compiler)
  | 0, _, _ => .error .outOfFuel
  | fuel + 1, fdef, c => do
    let (proto, c) ← new_prototype fuel fdef c
    let (dest, c) ← allocateReg c
    .ok (.Register dest true, pushOp (.Closure proto dest) c)

/-- Embedding of `Compiler::suffixed_expression`: method call suffixes are
unimplemented and crash. -/
def suffixed_expression : Nat → SuffixedExpression → Compiler →
    Except CompilerIssue (ExprDescriptor × Compiler)
  | 0, _, _ => .error .outOfFuel
  | fuel + 1, se, c => do
    let (d, c) ← primary_expression fuel se.primary c
    suffixesGo fuel d se.suffixes c

/-- The suffix loop of `Compiler::suffixed_expression`. -/
def suffixesGo : Nat → ExprDescriptor → List SuffixPart → Compiler →
    Except CompilerIssue (ExprDescriptor × Compiler)
  | 0, _, _, _ => .error .outOfFuel
  | _ + 1, d, [], c => .ok (d, c)
  | fuel + 1, d, suffix :: rest, c =>
    match suffix with
    | .Field field => do
      let (key, c) ←
        match field with
        | .Named name => .ok (ExprDescriptor.Value (.string name), c)
        | .Indexed idx => expression fuel idx c
      let (res, d, key, c) ← get_table fuel d key c
      let (_, c) ← expr_discard fuel d c
      let (_, c) ← expr_discard fuel key c
      suffixesGo fuel res rest c
    | .Call (.Function args) => do
      let (argDs, c) ← exprList fuel args c
      suffixesGo fuel (.FunctionCall d argDs) rest c
    | .Call (.Method _ _) => .error (.crash "methods not supported yet")

/-- Embedding of `Compiler::primary_expression`: a name resolves to a local register,
an upvalue, or an `_ENV` table access for globals. -/
def primary_expression : Nat → PrimaryExpression → Compiler →
    Except CompilerIssue (ExprDescriptor × Compiler)
  | 0, _, _ => .error .outOfFuel
  | fuel + 1, pe, c =>
    match pe with
    | .Name name => do
      let (d, c) ← find_variable name c
      match d with
      | .Local register => .ok (.Register register false, c)
      | .UpValue u => .ok (.UpValue u, c)
      | .Global gname => do
        let (env, c) ← get_environment c
        let key := ExprDescriptor.Value (.string gname)
        let (res, env, key, c) ← get_table fuel env key c
        let (_, c) ← expr_discard fuel env c
        let (_, c) ← expr_discard fuel key c
        .ok (res, c)
    | .GroupedExpression e => expression fuel e c

/-- Embedding of `Compiler::new_prototype`: compile a nested function definition in a
fresh context pushed onto the function stack, finish it, and append the
prototype to the parent. -/
def new_prototype : Nat → FunctionDefinition → Compiler →
    Except CompilerIssue (Nat × Compiler)
  | 0, _, _ => .error .outOfFuel
  | fuel + 1, fdef, c => do
    let newf ← CompilerFunction.start fdef.parameters fdef.has_varargs
    let c : Compiler :=
      { current_function := newf,
        upper_functions := c.upper_functions ++ [c.current_function] }
    let (_, c) ← Compiler.block fuel fdef.body c
    let proto ← c.current_function.finish
    match c.upper_functions.getLast? with
    | none => .error (.crash "no upper function")
    | some parent =>
      let c : Compiler :=
        { current_function := { parent with prototypes := parent.prototypes ++ [proto] },
          upper_functions := c.upper_functions.dropLast }
      match castU8 (c.current_function.prototypes.length - 1) with
      | some i => .ok (i, c)
      | none => .error (.err .Functions)

/-- Embedding of `Compiler::unary_operator`: constant folding first, `Not` stays
deferred, other operators materialise (and crash, being unimplemented in
`unop_opcode`). -/
def unary_operator : Nat → UnaryOperator → ExprDescriptor → Compiler →
    Except CompilerIssue (ExprDescriptor × Compiler)
  | 0, _, _, _ => .error .outOfFuel
  | fuel + 1, op, e, c =>
    let folded :=
      match e with
      | .Value v => unop_const_fold op v
      | _ => none
    match folded with
    | some v => .ok (ExprDescriptor.Value v, c)
    | none =>
      if op = .Not then .ok (.Not e, c)
      else do
        let (source, e, c) ← expr_any_register fuel e c
        let (_, c) ← expr_discard fuel e c
        let (dest, c) ← allocateReg c
        let opc ← unop_opcode op dest source
        .ok (.Register dest true, pushOp opc c)

/-- Embedding of `Compiler::binary_operator`: simple operators fold or emit the
four-variant opcode; comparisons fold or stay deferred; short-circuit
operators keep their right side as syntax; concat is unimplemented and
crashes. -/
def binary_operator : Nat → ExprDescriptor → BinaryOperator → Expression →
    Compiler → Except CompilerIssue (ExprDescriptor × Compiler)
  | 0, _, _, _, _ => .error .outOfFuel
  | fuel + 1, left, binop, right, c =>
    match categorize_binop binop with
    | .Simple op => do
      let (rightD, c) ← expression fuel right c
      let folded :=
        match left, rightD with
        | .Value a, .Value b => simple_binop_const_fold op a b
        | _, _ => none
      match folded with
      | some v => .ok (ExprDescriptor.Value v, c)
      | none => do
        let (lrc, left, c) ← expr_any_register_or_constant fuel left c
        let (rrc, rightD, c) ← expr_any_register_or_constant fuel rightD c
        let (_, c) ← expr_discard fuel left c
        let (_, c) ← expr_discard fuel rightD c
        let (dest, c) ← allocateReg c
        let opc ← simple_binop_opcode op dest lrc rrc
        .ok (.Register dest true, pushOp opc c)
    | .Comparison op => do
      let (rightD, c) ← expression fuel right c
      let folded :=
        match left, rightD with
        | .Value a, .Value b => comparison_binop_const_fold op a b
        | _, _ => none
      match folded with
      | some v => .ok (ExprDescriptor.Value v, c)
      | none => .ok (.Comparison left op rightD, c)
    | .ShortCircuit op => .ok (.ShortCircuitBinOp left op right, c)
    | .Concat => .error (.crash "no support for concat operator")

/-- Embedding of `Compiler::get_table`: returns the result descriptor together with
the (possibly materialised) table and key descriptors. -/
def get_table : Nat → ExprDescriptor → ExprDescriptor → Compiler →
    Except CompilerIssue (ExprDescriptor × ExprDescriptor × ExprDescriptor × Compiler)
  | 0, _, _, _ => .error .outOfFuel
  | fuel + 1, table, key, c => do
    let (dest, c) ← allocateReg c
    match table with
    | .UpValue t => do
      let (krc, key, c) ← expr_any_register_or_constant fuel key c
      let opc :=
        match krc with
        | .Constant k => OpCode.GetUpTableC dest t k
        | .Register k => OpCode.GetUpTableR dest t k
      .ok (.Register dest true, table, key, pushOp opc c)
    | table => do
      let (treg, table, c) ← expr_any_register fuel table c
      let (krc, key, c) ← expr_any_register_or_constant fuel key c
      let opc :=
        match krc with
        | .Constant k => OpCode.GetTableC dest treg k
        | .Register k => OpCode.GetTableR dest treg k
      .ok (.Register dest true, table, key, pushOp opc c)

/-- Embedding of `Compiler::set_table`: returns the (possibly materialised) table, key
and value descriptors. -/
def set_table : Nat → ExprDescriptor → ExprDescriptor → ExprDescriptor → Compiler →
    Except CompilerIssue (ExprDescriptor × ExprDescriptor × ExprDescriptor × Compiler)
  | 0, _, _, _, _ => .error .outOfFuel
  | fuel + 1, table, key, value, c =>
    match table with
    | .UpValue t => do
      let (krc, key, c) ← expr_any_register_or_constant fuel key c
      let (vrc, value, c) ← expr_any_register_or_constant fuel value c
      let opc :=
        match krc, vrc with
        | .Register k, .Register v => OpCode.SetUpTableRR t k v
        | .Register k, .Constant v => OpCode.SetUpTableRC t k v
        | .Constant k, .Register v => OpCode.SetUpTableCR t k v
        | .Constant k, .Constant v => OpCode.SetUpTableCC t k v
      .ok (table, key, value, pushOp opc c)
    | table => do
      let (treg, table, c) ← expr_any_register fuel table c
      let (krc, key, c) ← expr_any_register_or_constant fuel key c
      let (vrc, value, c) ← expr_any_register_or_constant fuel value c
      let opc :=
        match krc, vrc with
        | .Register k, .Register v => OpCode.SetTableRR treg k v
        | .Register k, .Constant v => OpCode.SetTableRC treg k v
        | .Constant k, .Register v => OpCode.SetTableCR treg k v
        | .Constant k, .Constant v => OpCode.SetTableCC treg k v
      .ok (table, key, value, pushOp opc c)

/-- Embedding of `Compiler::expr_any_register`: ensure the expression lives in some
register, rewriting it in place into a temporary register descriptor. -/
def expr_any_register : Nat → ExprDescriptor → Compiler →
    Except CompilerIssue (Nat × ExprDescriptor × Compiler)
  | 0, _, _ => .error .outOfFuel
  | fuel + 1, e, c =>
    match e with
    | .Register register t => .ok (register, .Register register t, c)
    | e => do
      let (register, c) ← expr_discharge fuel e .AllocateNew c
      .ok (register, .Register register true, c)

/-- Embedding of `Compiler::expr_any_register_or_constant`: a constant value whose
pool index fits in 8 bits stays a constant operand, anything else goes
through `expr_any_register`. -/
def expr_any_register_or_constant : Nat → ExprDescriptor → Compiler →
    Except CompilerIssue (RegisterOrConstant × ExprDescriptor × Compiler)
  | 0, _, _ => .error .outOfFuel
  | fuel + 1, e, c =>
    match e with
    | .Value v => do
      let (idx, c) ← get_constant v c
      match castU8 idx with
      | some c8 => .ok (.Constant c8, .Value v, c)
      | none => do
        let (r, e, c) ← expr_any_register fuel (.Value v) c
        .ok (.Register r, e, c)
    | e => do
      let (r, e, c) ← expr_any_register fuel e c
      .ok (.Register r, e, c)

/-- Embedding of `Compiler::expr_discharge`: commit an expression descriptor to a
register.  The `PushNew` destination asserts that the result ends at the
top of the stack. -/
def expr_discharge : Nat → ExprDescriptor → ExprDestination → Compiler →
    Except CompilerIssue (Nat × Compiler)
  | 0, _, _, _ => .error .outOfFuel
  | fuel + 1, e, dest, c => do
    let (result, c) ←
      match e with
      | .Register source is_temporary =>
        if dest = .AllocateNew && is_temporary then
          (.ok (source, c) : Except CompilerIssue (Nat × Compiler))
        else do
          let c := if is_temporary then
              withRA (c.current_function.register_allocator.free source) c
            else c
          let (d, c) ← newDestination dest c
          let c := if d ≠ source then pushOp (.Move d source) c else c
          .ok (d, c)
      | .UpValue source => do
        let (d, c) ← newDestination dest c
        .ok (d, pushOp (.GetUpValue source d) c)
      | .Value value => do
        let (d, c) ← newDestination dest c
        match value with
        | .nil => .ok (d, pushOp (.LoadNil d 1) c)
        | .boolean b => .ok (d, pushOp (.LoadBool d b false) c)
        | val => do
          let (constant, c) ← get_constant val c
          .ok (d, pushOp (.LoadConstant d constant) c)
      | .VarArgs => do
        let (d, c) ← newDestination dest c
        .ok (d, pushOp (.VarArgs d (.constant 1)) c)
      | .Not inner => do
        let (source, inner, c) ← expr_any_register fuel inner c
        let (_, c) ← expr_discard fuel inner c
        let (d, c) ← newDestination dest c
        .ok (d, pushOp (.Not d source) c)
      | .FunctionCall func args =>
        match dest with
        | .Register d => do
          let (source, c) ← expr_function_call fuel func args (.constant 1) c
          if d = source then .error (.crash "function call source equals dest")
          else .ok (d, pushOp (.Move d source) c)
        | _ => do
          let (source, c) ← expr_function_call fuel func args (.constant 1) c
          match c.current_function.register_allocator.push 1 with
          | none => .error (.err .Registers)
          | some (r, ra) =>
            if r = source then .ok (source, withRA ra c)
            else .error (.crash "function call result not at top")
      | .Comparison left op right => do
        let (lrc, left, c) ← expr_any_register_or_constant fuel left c
        let (rrc, right, c) ← expr_any_register_or_constant fuel right c
        let (_, c) ← expr_discard fuel left c
        let (_, c) ← expr_discard fuel right c
        let (d, c) ← newDestination dest c
        let opc ← comparison_binop_opcode op lrc rrc false
        let c := pushOp opc c
        let c := pushOp (.Jump 1 none) c
        let c := pushOp (.LoadBool d false true) c
        let c := pushOp (.LoadBool d true false) c
        .ok (d, c)
      | .ShortCircuitBinOp left op right => do
        let (left_register, left, c) ← expr_any_register fuel left c
        let (_, c) ← expr_discard fuel left c
        let (d, c) ← newDestination dest c
        let test_op_true := op == ShortCircuitBinOp.And
        let test_op :=
          if left_register = d then OpCode.Test left_register test_op_true
          else OpCode.TestSet d left_register test_op_true
        let c := pushOp test_op c
        let (skip, c) ← unique_jump_label c
        let (_, c) ← jump skip c
        let (rightD, c) ← expression fuel right c
        let (_, c) ← expr_discharge fuel rightD (.Register d) c
        let (_, c) ← jump_target skip c
        .ok (d, c)
    if dest = .PushNew then
      let ra := c.current_function.register_allocator
      if result + 1 ≠ ra.stack_top then
        .error (.crash "PushNew result not at stack top")
      else if !(result == 0 || ra.is_allocated (result - 1)) then
        .error (.crash "PushNew result preceded by free register")
      else .ok (result, c)
    else .ok (result, c)

/-- Embedding of `Compiler::expr_push_count`: evaluate an expression into `count`
contiguous top-of-stack registers, with variable-count fan-out for calls
and varargs and `LoadNil` fill otherwise. -/
def expr_push_count : Nat → ExprDescriptor → Nat → Compiler →
    Except CompilerIssue (Nat × Compiler)
  | 0, _, _, _ => .error .outOfFuel
  | fuel + 1, e, count, c =>
    if count = 0 then .error (.crash "expr push count is zero")
    else
      match e with
      | .FunctionCall func args => do
        let vc ←
          match VarCount.try_constant count with
          | some vc => pure vc
          | none => .error (.err .Registers)
        let (d, c) ← expr_function_call fuel func args vc c
        match c.current_function.register_allocator.push count with
        | some (_, ra) => .ok (d, withRA ra c)
        | none => .error (.err .Registers)
      | .VarArgs => do
        let (d, c) ← pushRegs count c
        let vc ←
          match VarCount.try_constant count with
          | some vc => pure vc
          | none => .error (.err .Registers)
        .ok (d, pushOp (.VarArgs d vc) c)
      | .Value .nil => do
        let (d, c) ← pushRegs count c
        .ok (d, pushOp (.LoadNil d count) c)
      | e => do
        let (d, c) ← expr_discharge fuel e .PushNew c
        if 1 < count then
          match c.current_function.register_allocator.push (count - 1) with
          | some (nils, ra) =>
            .ok (d, pushOp (.LoadNil nils (count - 1)) (withRA ra c))
          | none => .error (.err .Registers)
        else .ok (d, c)

/-- Embedding of `Compiler::expr_function_call`: push the callee and arguments (a
trailing call or varargs argument is forwarded with variable count), emit
`Call`, pop the frame, and return the base register. -/
def expr_function_call : Nat → ExprDescriptor → List ExprDescriptor → VarCount →
    Compiler → Except CompilerIssue (Nat × Compiler)
  | 0, _, _, _, _ => .error .outOfFuel
  | fuel + 1, func, args, returns, c => do
    let (top_reg, c) ← expr_discharge fuel func .PushNew c
    let args_len := args.length
    let (arg_count, c) ←
      match args.getLast? with
      | none =>
        match (castU8 args_len).bind VarCount.try_constant with
        | some vc => (.ok (vc, c) : Except CompilerIssue (VarCount × Compiler))
        | none => .error (.err .Registers)
      | some last_arg => do
        let (_, c) ← argsPushGo fuel args.dropLast c
        match last_arg with
        | .FunctionCall f2 a2 => do
          let (_, c) ← expr_function_call fuel f2 a2 .variable c
          pure (VarCount.variable, c)
        | .VarArgs => do
          let d ←
            match castU8 (top_reg + args_len) with
            | some d => pure d
            | none => .error (.err .Registers)
          pure (VarCount.variable, pushOp (.VarArgs d .variable) c)
        | la => do
          let (_, c) ← expr_discharge fuel la .PushNew c
          match (castU8 args_len).bind VarCount.try_constant with
          | some vc => pure (vc, c)
          | none => .error (.err .Registers)
    let c := pushOp (.Call top_reg arg_count returns) c
    .ok (top_reg, withRA (c.current_function.register_allocator.pop_to top_reg) c)

/-- The leading-arguments loop of `Compiler::expr_function_call`. -/
def argsPushGo : Nat → List ExprDescriptor → Compiler →
    Except CompilerIssue (Unit × Compiler)
  | 0, _, _ => .error .outOfFuel
  | _ + 1, [], c => .ok ((), c)
  | fuel + 1, a :: rest, c => do
    let (_, c) ← expr_discharge fuel a .PushNew c
    argsPushGo fuel rest c

/-- Embedding of `Compiler::expr_test`: emit a test that skips the next instruction
iff the expression's boolean value equals `skip_if`. -/
def expr_test : Nat → ExprDescriptor → Bool → Compiler →
    Except CompilerIssue (Unit × Compiler)
  | 0, _, _, _ => .error .outOfFuel
  | fuel + 1, e, skip_if, c =>
    match e with
    | .Value v =>
      if v.as_bool == skip_if then .ok ((), pushOp (.Jump 1 none) c)
      else .ok ((), c)
    | .Comparison left op right => genComparison fuel left op right skip_if c
    | .Not inner =>
      match inner with
      | .Comparison left op right => genComparison fuel left op right (!skip_if) c
      | inner => genTest fuel inner (!skip_if) c
    | e => genTest fuel e skip_if c

/-- Embedding of `gen_comparison` inside `Compiler::expr_test`. -/
def genComparison : Nat → ExprDescriptor → ComparisonBinOp → ExprDescriptor →
    Bool → Compiler → Except CompilerIssue (Unit × Compiler)
  | 0, _, _, _, _, _ => .error .outOfFuel
  | fuel + 1, left, op, right, skip_if, c => do
    let (lrc, left, c) ← expr_any_register_or_constant fuel left c
    let (rrc, right, c) ← expr_any_register_or_constant fuel right c
    let (_, c) ← expr_discard fuel left c
    let (_, c) ← expr_discard fuel right c
    let opc ← comparison_binop_opcode op lrc rrc skip_if
    .ok ((), pushOp opc c)

/-- Embedding of `gen_test` inside `Compiler::expr_test`. -/
def genTest : Nat → ExprDescriptor → Bool → Compiler →
    Except CompilerIssue (Unit × Compiler)
  | 0, _, _, _ => .error .outOfFuel
  | fuel + 1, e, is_true, c => do
    let (test_reg, e, c) ← expr_any_register fuel e c
    let (_, c) ← expr_discard fuel e c
    .ok ((), pushOp (.Test test_reg is_true) c)

/-- Embedding of `Compiler::expr_discard`: evaluate an expression for effect only.  A
discarded comparison is emitted followed by an unconditional zero-offset
`Jump` with no upvalue close, acting as a no-op skip target. -/
def expr_discard : Nat → ExprDescriptor → Compiler →
    Except CompilerIssue (Unit × Compiler)
  | 0, _, _ => .error .outOfFuel
  | fuel + 1, e, c =>
    match e with
    | .Register source is_temporary =>
      .ok ((), if is_temporary then
        withRA (c.current_function.register_allocator.free source) c else c)
    | .Not inner => expr_discard fuel inner c
    | .FunctionCall func args => do
      let (_, c) ← expr_function_call fuel func args (.constant 0) c
      .ok ((), c)
    | .Comparison left op right => do
      let (lrc, left, c) ← expr_any_register_or_constant fuel left c
      let (rrc, right, c) ← expr_any_register_or_constant fuel right c
      let (_, c) ← expr_discard fuel left c
      let (_, c) ← expr_discard fuel right c
      let opc ← comparison_binop_opcode op lrc rrc false
      let c := pushOp opc c
      .ok ((), pushOp (.Jump 0 none) c)
    | .ShortCircuitBinOp left op right => do
      let (left_register, left, c) ← expr_any_register fuel left c
      let (_, c) ← expr_discard fuel left c
      let test_op_true := op == ShortCircuitBinOp.And
      let c := pushOp (.Test left_register test_op_true) c
      let (skip, c) ← unique_jump_label c
      let (_, c) ← jump skip c
      let (rightD, c) ← expression fuel right c
      let (_, c) ← expr_discard fuel rightD c
      jump_target skip c
    | _ => .ok ((), c)

end

/-- Embedding of `compile_chunk` of `src/compiler/mod.rs`: compile the chunk block in a
fresh varargs top-level function context and finish it. -/
def compile_chunk (fuel : Nat) (chunk : Chunk) :
    Except CompilerIssue FunctionProto :=
  match CompilerFunction.start [] true with
  | .error e => .error e
  | .ok f0 =>
    match Compiler.block fuel chunk.block
        { current_function := f0, upper_functions := [] } with
    | .error e => .error e
    | .ok (_, c) => c.current_function.finish

/-! Concrete programs and states used to exercise the embedded
compiler. -/

/-- The empty chunk. -/
def emptyChunk : Chunk := .mk (.mk [] none)

/-- The expression `i` for an integer literal. -/
def eInt (n : Int) : Expression := .mk (.Simple (.Integer n)) []

/-- The expression consisting of a bare name. -/
def eName (s : String) : Expression := .mk (.Simple (.Suffixed (.mk (.Name s) []))) []

/-- The expression `...` (varargs). -/
def eVarArgs : Expression := .mk (.Simple .VarArgs) []

/-- The chunk `local x = 1, ... == ...`: its second value is a discarded
comparison whose operands are not compile-time constants. -/
def c2chunk : Chunk :=
  .mk (.mk [.LocalStatement (.mk ["x"]
    [eInt 1, .mk (.Simple .VarArgs) [(.Equal, eVarArgs)]])] none)

/-- The error outcome of a compilation, when there is one. -/
def compileError (fuel : Nat) (chunk : Chunk) : Option CompilerIssue :=
  match compile_chunk fuel chunk with
  | .error e => some e
  | .ok _ => none

/-- The chunk `return ...`. -/
def varargsRetChunk : Chunk :=
  .mk (.mk [] (some (.mk [.mk (.Simple .VarArgs) []])))

/-- The chunk `return f()` with `f` a global. -/
def callRetChunk : Chunk :=
  .mk (.mk [] (some (.mk
    [.mk (.Simple (.Suffixed (.mk (.Name "f") [.Call (.Function [])]))) []])))

/-- The chunk `local x = a .. b`, using the unimplemented concat
operator. -/
def concatChunk : Chunk :=
  .mk (.mk [.LocalStatement (.mk ["x"]
    [.mk (.Simple (.Suffixed (.mk (.Name "a") []))) [(.Concat, eName "b")]])] none)

/-- The chunk `local x = {1}`, using an unimplemented non-empty table
constructor. -/
def tableChunk : Chunk :=
  .mk (.mk [.LocalStatement (.mk ["x"]
    [.mk (.Simple (.TableConstructor (.mk [()]))) []])] none)

/-- The chunk `a:m()`, an unimplemented method call statement. -/
def methodChunk : Chunk :=
  .mk (.mk [.FunctionCall (.mk (.mk (.Name "a") []) (.Method "m" []))] none)

/-- The chunk `function a.b() end`, an unimplemented function statement
with a name field chain. -/
def fieldsChunk : Chunk :=
  .mk (.mk [.Function (.mk (.mk "a" ["b"] none) (.mk [] false (.mk [] none)))] none)

/-- The chunk `goto l; local x = 1; ::l::; local y = 1`: a forward goto
into the scope of a new local. -/
def gotoChunk : Chunk :=
  .mk (.mk [.Goto "l", .LocalStatement (.mk ["x"] [eInt 1]), .Label "l",
            .LocalStatement (.mk ["y"] [eInt 1])] none)

/-- Whether an opcode has the placeholder-jump shape
`Jump { offset: 0, close_upvalues: none }`. -/
def isPlaceholderJump : OpCode → Bool
  | .Jump 0 none => true
  | _ => false

/-- The balance property checked by the finish-time assertion of
`CompilerFunction::finish`: after freeing the remaining (parameter)
locals, the register stack top is zero. -/
def finishBalanced (f : CompilerFunction) : Bool :=
  (f.locals.foldl (fun (ra : RegisterAllocator) p => ra.free p.2)
    f.register_allocator).stack_top == 0

/-- A fresh compiler state: an empty top-level function context. -/
def initialC : Compiler := { current_function := {}, upper_functions := [] }

/-- An enclosing-function state for exercising `find_variable`: the outer
function has a local `x` in register 0 and two nested blocks, both with
`stack_bottom = 0`; the current (inner) function is fresh. -/
def c3State : Compiler :=
  { current_function := {},
    upper_functions := [{ locals := [("x", 0)],
                          blocks := [⟨0, 0, false⟩, ⟨0, 0, false⟩] }] }

/-- The label used in the `jump_target` test states. -/
def jlLabel : JumpLabel := .Unique 0

/-- A function state about to resolve a pending forward jump: one block,
one pending jump to `jlLabel` recorded at stack top `jumpTop` over a
placeholder jump at instruction 0, with the current (label-site) stack
top `targetTop`. -/
def mkJTState (jumpTop targetTop : Nat) : Compiler :=
  { current_function :=
      { register_allocator :=
          { stack_top := targetTop, stack_size := targetTop,
            allocated := List.range targetTop },
        blocks := [⟨0, 0, false⟩],
        pending_jumps := [⟨jlLabel, 0, 0, jumpTop, false⟩],
        opcodes := [.Jump 0 none] },
    upper_functions := [] }

/-- A constant-pool state holding 65536 constants with an empty lookup
table. -/
def bigConstF : CompilerFunction :=
  { constants := List.replicate 65536 (.integer 0), constant_table := [] }

/-- An empty per-function compilation state. -/
def emptyCF : CompilerFunction := {}

/-! Claim theorems. -/

/-- C1, counterexample: the claim says a chunk using the string-concat
operator makes `compile_chunk` return a structured "unsupported" error
value rather than panicking; in fact the source hits `unimplemented!`,
a panic (crash) — there is no "unsupported" variant in `CompilerError`
at all. -/
theorem c1_counterexample :
    compile_chunk 100 concatChunk = .error (.crash "no support for concat operator") := rfl

/-- C1, amended: for each unimplemented construct (concat operator,
non-empty table constructor, method call, function-name field chain),
`compile_chunk` panics via `unimplemented!` (modelled as the crash
outcome); it does not return a structured compiler error value. -/
theorem c1_amended :
    compile_chunk 100 concatChunk = .error (.crash "no support for concat operator") ∧
    compile_chunk 100 tableChunk = .error (.crash "only empty table constructors supported") ∧
    compile_chunk 100 methodChunk = .error (.crash "method call unsupported") ∧
    compile_chunk 100 fieldsChunk = .error (.crash "no function name fields support") :=
  ⟨rfl, rfl, rfl, rfl⟩

/-- C2, counterexample: the chunk `local x = 1, ... == ...` compiles
successfully and its top-level prototype contains a
`Jump { offset: 0, close_upvalues: none }` opcode — the no-op jump
emitted by `expr_discard` after a discarded comparison — refuting the
claim that no successful output contains that shape. -/
theorem c2_counterexample :
    (compile_chunk 100 c2chunk).toOption.map
      (fun p => (p.opcodes, p.opcodes.any isPlaceholderJump)) =
    some ([.LoadConstant 0 0, .VarArgs 1 (.constant 1), .VarArgs 2 (.constant 1),
           .EqRR false 1 2, .Jump 0 none, .Return 0 (.constant 0)], true) := by
  decide

/-- C2, amended: the shape `Jump { offset: 0, close_upvalues: none }` is
not only a pending-jump placeholder: discarding a comparison emits the
comparison opcode followed by exactly such a jump as a deliberate no-op
skip target, and it survives into successful output. -/
theorem c2_amended : ∀ (c : Compiler) (l r : Nat),
    expr_discard 10 (.Comparison (.Register l false) .Equal (.Register r false)) c =
      .ok ((), pushOp (.Jump 0 none) (pushOp (.EqRR false l r) c)) :=
  fun _ _ _ => rfl

/-- C5, code-bug evaluation: compiling `return ...` emits
`VarArgs { count: constant 1 }` and `Return { count: constant 1 }` — the
trailing varargs is not forwarded with variable count (only a trailing
function call is, as the second conjunct shows for `return f()`). -/
theorem c5_theorem :
    (compile_chunk 100 varargsRetChunk).toOption.map FunctionProto.opcodes =
      some [.VarArgs 0 (.constant 1), .Return 0 (.constant 1),
            .Return 0 (.constant 0)] ∧
    (compile_chunk 100 callRetChunk).toOption.map FunctionProto.opcodes =
      some [.GetUpTableC 0 0 0, .Call 0 (.constant 0) .variable,
            .Return 0 .variable, .Return 0 (.constant 0)] := by
  constructor <;> decide

/-- C3, counterexample: resolving `x` from an inner function against
`c3State` — whose outer function holds `x` in register 0 under two nested
blocks that both have `stack_bottom = 0` — marks only the innermost
block: afterwards the outer block still has `owns_upvalues = false` even
though its `stack_bottom` is also ≤ the captured register, refuting
"every block whose stack_bottom ≤ register is marked". -/
theorem c3_counterexample :
    (find_variable "x" c3State).toOption.map
      (fun rc => (rc.1,
        ((rc.2.upper_functions.headD default).blocks.map BlockDescriptor.stack_bottom,
         (rc.2.upper_functions.headD default).blocks.map BlockDescriptor.owns_upvalues))) =
    some (.UpValue 0, ([0, 0], [false, true])) := rfl

/-- The first-match lemma behind the amended C3: the reverse marking loop
leaves a prefix of non-owning blocks untouched and marks the first block
it meets whose `stack_bottom` is within range. -/
theorem markRevGo_append (r : Nat) (b : BlockDescriptor) :
    ∀ (xs ys : List BlockDescriptor), (∀ x ∈ xs, ¬ x.stack_bottom ≤ r) →
    b.stack_bottom ≤ r →
    markRevGo r (xs ++ b :: ys) = xs ++ { b with owns_upvalues := true } :: ys := by
  intro xs ys hxs hb
  induction xs with
  | nil => simp [markRevGo, hb]
  | cons a as ih =>
    have ha : ¬ a.stack_bottom ≤ r := hxs a (by simp)
    simp only [List.cons_append, markRevGo, if_neg ha, List.cons.injEq, true_and]
    exact ih (fun x hx => hxs x (by simp [hx]))

/-- C3, amended: `find_variable` marks exactly one block of the enclosing
function — the innermost block whose `stack_bottom` is at most the
captured register (the block owning the local); every enclosing block
with the same property is left unmarked. -/
theorem c3_amended : ∀ (pre suf : List BlockDescriptor) (b : BlockDescriptor) (r : Nat),
    b.stack_bottom ≤ r → (∀ x ∈ suf, ¬ x.stack_bottom ≤ r) →
    markUpvalBlocks (pre ++ b :: suf) r =
      pre ++ { b with owns_upvalues := true } :: suf := by
  intro pre suf b r hb hsuf
  unfold markUpvalBlocks
  rw [show (pre ++ b :: suf).reverse = suf.reverse ++ b :: pre.reverse by simp]
  rw [markRevGo_append r b suf.reverse pre.reverse
    (fun x hx => hsuf x (List.mem_reverse.mp hx)) hb]
  simp

/-- Witness for the amended C3 at a concrete block stack: the outer block
with `stack_bottom = 0` stays unmarked, the inner block with
`stack_bottom = 0` is marked, the block with `stack_bottom = 5` is out of
range of register 0. -/
theorem c3_witness :
    markUpvalBlocks [⟨0, 0, false⟩, ⟨0, 0, false⟩, ⟨5, 0, false⟩] 0 =
      [⟨0, 0, false⟩, ⟨0, 0, true⟩, ⟨5, 0, false⟩] :=
  c3_amended [⟨0, 0, false⟩] [⟨5, 0, false⟩] ⟨0, 0, false⟩ 0 (by decide) (by decide)

/-- Helper for C4: a successful `finish` implies the finish-time balance
property — freeing the remaining parameter locals leaves the register
stack empty. -/
theorem finish_ok_balanced : ∀ (f : CompilerFunction) (p : FunctionProto),
    CompilerFunction.finish f = .ok p → finishBalanced f = true := by
  intro f p h
  unfold CompilerFunction.finish at h
  dsimp only at h
  split at h
  · exact absurd h (by simp)
  · split at h
    · exact absurd h (by simp)
    · rename_i hlen hra
      unfold finishBalanced
      simpa using of_not_not hra

/-- C4: whenever `compile_chunk` succeeds, the (top-level) function state
passed to `CompilerFunction.finish` satisfies the finish-time balance
assertion: after the parameter locals are freed the register stack top is
zero.  (`finish` is also the only producer of nested prototypes, and
`finish_ok_balanced` gives the same property at every nested finish.) -/
theorem c4_theorem : ∀ (fuel : Nat) (chunk : Chunk) (p : FunctionProto),
    compile_chunk fuel chunk = .ok p →
    ∃ cf, CompilerFunction.finish cf = .ok p ∧ finishBalanced cf = true := by
  intro fuel chunk p h
  have hcc : compile_chunk fuel chunk =
      match Compiler.block fuel chunk.block
          { current_function := { has_varargs := true }, upper_functions := [] } with
      | .error e => .error e
      | .ok (_, c) => c.current_function.finish := rfl
  rw [hcc] at h
  cases hb : Compiler.block fuel chunk.block
      { current_function := { has_varargs := true }, upper_functions := [] } with
  | error e => rw [hb] at h; exact absurd h (by simp)
  | ok x =>
    rw [hb] at h
    exact ⟨x.2.current_function, h, finish_ok_balanced _ _ h⟩

/-- Witness for C4 on the empty chunk, which compiles successfully. -/
theorem c4_witness :
    ∃ cf, CompilerFunction.finish cf =
        .ok (.mk 0 true 0 [] [.Return 0 (.constant 0)] [] []) ∧
      finishBalanced cf = true :=
  c4_theorem 100 emptyChunk _ rfl

/-- C6, counterexample: at `mkJTState 0 1` the pending jump's recorded
stack top is 0 and the label-site (target) stack top is 1 — the target's
stack top is not less than the jump's, so the claim predicts no error —
yet `jump_target` fails with `JumpLocal`.  The same shape is reachable
end to end: `goto l; local x = 1; ::l::; local y = 1` compiles to
`JumpLocal`. -/
theorem c6_counterexample :
    jump_target jlLabel (mkJTState 0 1) = .error (.err .JumpLocal) ∧
    ¬ 1 < 0 ∧
    compileError 100 gotoChunk = some (.err .JumpLocal) :=
  ⟨rfl, by decide, by decide⟩

/-- C8: discharging a `Comparison` descriptor whose operands already live
in registers into a register destination emits exactly the four-opcode
sequence: the comparison opcode computed with `skip_if = false`, a
`Jump` with offset 1 and no upvalue close, `LoadBool(dest, false,
skip_next = true)`, and `LoadBool(dest, true)`. -/
theorem c8_theorem : ∀ (c : Compiler) (l r d : Nat) (op : ComparisonBinOp),
    op = .Equal ∨ op = .NotEqual →
    ∃ cmp, comparison_binop_opcode op (.Register l) (.Register r) false = .ok cmp ∧
      expr_discharge 10 (.Comparison (.Register l false) op (.Register r false))
          (.Register d) c =
        .ok (d, pushOp (.LoadBool d true false) (pushOp (.LoadBool d false true)
          (pushOp (.Jump 1 none) (pushOp cmp c)))) := by
  rintro c l r d op (rfl | rfl)
  · exact ⟨_, rfl, rfl⟩
  · exact ⟨_, rfl, rfl⟩

/-- Witness for C8 at the `Equal` comparison in a fresh state. -/
theorem c8_witness :
    ∃ cmp, comparison_binop_opcode .Equal (.Register 1) (.Register 2) false = .ok cmp ∧
      expr_discharge 10 (.Comparison (.Register 1 false) .Equal (.Register 2 false))
          (.Register 0) initialC =
        .ok (0, pushOp (.LoadBool 0 true false) (pushOp (.LoadBool 0 false true)
          (pushOp (.Jump 1 none) (pushOp cmp initialC)))) :=
  c8_theorem initialC 1 2 0 .Equal (Or.inl rfl)

/-- C6, amended: when `jump_target` resolves a pending jump, the jump's
recorded stack top must be at most the target's (label-site) stack top —
the reverse of the claim's direction — and the resolution fails with
`JumpLocal` exactly when it is strictly smaller (a local comes into scope
between the jump and the target). -/
theorem c6_amended : ∀ jt tt : Nat, jt ≤ tt →
    ((jump_target jlLabel (mkJTState jt tt) = .error (.err .JumpLocal)) ↔ jt < tt) := by
  intro jt tt h
  rcases Nat.lt_or_ge jt tt with hlt | hge
  · simp [jump_target, mkJTState, dupScanRev, jlLabel, List.foldlM, Except.bind,
      patchJump, hlt, Nat.lt_asymm hlt]
    rfl
  · have heq : jt = tt := Nat.le_antisymm h hge
    subst heq
    simp [jump_target, mkJTState, dupScanRev, jlLabel, List.foldlM, Except.bind,
      patchJump, jump_offset]
    intro hcon
    exact Except.noConfusion hcon

/-- Witness for the amended C6: a pending jump recorded at stack top 2
resolved at a label with stack top 3 is the `JumpLocal` error. -/
theorem c6_witness :
    ((jump_target jlLabel (mkJTState 2 3) = .error (.err .JumpLocal)) ↔ 2 < 3) :=
  c6_amended 2 3 (by decide)

/-- C9, counterexample: `jump_offset 32767 0` is `none` although the
offset `0 - (32767 + 1) = -32768` is representable as an i16. -/
theorem c9_counterexample :
    jump_offset 32767 0 = none ∧
    -(2 ^ 15 : Int) ≤ (0 : Int) - (32767 + 1) ∧
    (0 : Int) - (32767 + 1) ≤ 2 ^ 15 - 1 :=
  ⟨rfl, by decide, by decide⟩

/-- C9, amended: `jump_offset source target` returns
`some (target - (source + 1))` exactly when that value lies in
`[-32767, 32767]` — the negative bound is -32767, not -32768, because the
source casts the positive distance to i16 before negating. -/
theorem c9_amended : ∀ s t : Nat,
    jump_offset s t =
      if -32767 ≤ (t : Int) - ((s : Int) + 1) ∧ (t : Int) - ((s : Int) + 1) ≤ 32767
      then some ((t : Int) - ((s : Int) + 1)) else none := by
  intro s t
  unfold jump_offset
  by_cases h1 : s < t
  · rw [if_pos h1]
    by_cases h2 : t - (s + 1) ≤ 32767
    · rw [if_pos h2, if_pos (by constructor <;> omega)]
      simp only [Option.some.injEq]
      omega
    · rw [if_neg h2, if_neg (by rintro ⟨_, hb⟩; omega)]
  · rw [if_neg h1]
    by_cases h2 : (s + 1) - t ≤ 32767
    · rw [if_pos h2, if_pos (by constructor <;> omega)]
      simp only [Option.some.injEq]
      omega
    · rw [if_neg h2, if_neg (by rintro ⟨ha, _⟩; omega)]

/-- The wrapper equality is reflexive. -/
theorem constEq_refl (v : Value) : constEq v v = true := by
  simp [constEq]

/-- Helper for C7: appending a pool entry for `v` makes lookups of any
wrapper-equal `w` that previously missed hit that entry. -/
theorem lookup_append_hit : ∀ (t : List (Value × Nat)) (v w : Value) (n : Nat),
    lookupConstant t w = none → constEq v w = true →
    lookupConstant (t ++ [(v, n)]) w = some n := by
  intro t v w n hnone hvw
  induction t with
  | nil => simp [lookupConstant, List.find?, hvw]
  | cons a as ih =>
    cases hae : constEq a.1 w with
    | true => simp [lookupConstant, List.find?, hae] at hnone
    | false =>
      have hnone2 : lookupConstant as w = none := by
        simpa [lookupConstant, List.find?, hae] using hnone
      simpa [lookupConstant, List.find?, hae] using ih hnone2

/-- Helper for C7: wrapper-equal values look up identically. -/
theorem lookup_congr : ∀ (t : List (Value × Nat)) (v w : Value),
    constEq v w = true → lookupConstant t v = lookupConstant t w := by
  intro t v w hvw
  have hk : normKey v = normKey w := by
    have := hvw
    simpa [constEq] using this
  unfold lookupConstant
  have hp : (fun (p : Value × Nat) => constEq p.1 v) = (fun p => constEq p.1 w) := by
    funext p
    simp [constEq, hk]
  rw [hp]

/-- C7: `get_constant` deduplicates by the structural wrapper equality
(first and fourth conjuncts: a repeated or wrapper-equal value receives
the same index without growing the pool), assigns a fresh value the next
index `constants.len()` (first conjunct), and fails with the `Constants`
error exactly when that index does not fit in 16 bits, i.e. at 65536
distinct constants (second conjunct). -/
theorem c7_theorem : ∀ (f : CompilerFunction) (v : Value),
    (lookupConstant f.constant_table v = none → f.constants.length ≤ 65535 →
      CompilerFunction.get_constant f v = .ok (f.constants.length,
        { f with constants := f.constants ++ [v],
                 constant_table := f.constant_table ++ [(v, f.constants.length)] })) ∧
    (lookupConstant f.constant_table v = none → 65535 < f.constants.length →
      CompilerFunction.get_constant f v = .error (.err .Constants)) ∧
    (∀ i f2, CompilerFunction.get_constant f v = .ok (i, f2) →
      CompilerFunction.get_constant f2 v = .ok (i, f2)) ∧
    (∀ (w : Value) i f2, constEq v w = true →
      CompilerFunction.get_constant f v = .ok (i, f2) →
      ∃ f3, CompilerFunction.get_constant f2 w = .ok (i, f3)) := by
  intro f v
  refine ⟨?_, ?_, ?_, ?_⟩
  · intro hl hle
    unfold CompilerFunction.get_constant
    rw [hl]
    simp [castU16, hle]
  · intro hl hgt
    unfold CompilerFunction.get_constant
    rw [hl]
    simp [castU16, Nat.not_le_of_lt hgt]
  · intro i f2 hok
    unfold CompilerFunction.get_constant at hok ⊢
    cases hl : lookupConstant f.constant_table v with
    | some j =>
      rw [hl] at hok
      simp only [Except.ok.injEq, Prod.mk.injEq] at hok
      obtain ⟨hi, hf⟩ := hok
      subst hi
      subst hf
      rw [hl]
    | none =>
      rw [hl] at hok
      cases hc : castU16 f.constants.length with
      | none => rw [hc] at hok; exact absurd hok (by simp)
      | some n =>
        rw [hc] at hok
        simp only [Except.ok.injEq, Prod.mk.injEq] at hok
        obtain ⟨hi, hf⟩ := hok
        subst hi
        subst hf
        have hl2 : lookupConstant (f.constant_table ++ [(v, n)]) v = some n :=
          lookup_append_hit _ _ _ _ hl (constEq_refl v)
        dsimp only
        rw [hl2]
  · intro w i f2 hvw hok
    have hcong := lookup_congr f.constant_table v w hvw
    unfold CompilerFunction.get_constant at hok ⊢
    cases hl : lookupConstant f.constant_table v with
    | some j =>
      rw [hl] at hok
      simp only [Except.ok.injEq, Prod.mk.injEq] at hok
      obtain ⟨hi, hf⟩ := hok
      subst hi
      subst hf
      rw [← hcong, hl]
      exact ⟨f, rfl⟩
    | none =>
      rw [hl] at hok
      cases hc : castU16 f.constants.length with
      | none => rw [hc] at hok; exact absurd hok (by simp)
      | some n =>
        rw [hc] at hok
        simp only [Except.ok.injEq, Prod.mk.injEq] at hok
        obtain ⟨hi, hf⟩ := hok
        subst hi
        subst hf
        have hl2 : lookupConstant (f.constant_table ++ [(v, n)]) w = some n :=
          lookup_append_hit _ _ _ _ (hcong ▸ hl) hvw
        dsimp only
        rw [hl2]
        exact ⟨_, rfl⟩

/-- Witness for C7: a fresh pool assigns index 0; a pool with 65536
constants is exhausted. -/
theorem c7_witness :
    CompilerFunction.get_constant emptyCF (Value.integer 7) =
      .ok (emptyCF.constants.length,
        { emptyCF with
          constants := emptyCF.constants ++ [Value.integer 7],
          constant_table := emptyCF.constant_table ++ [(Value.integer 7, emptyCF.constants.length)] }) ∧
    CompilerFunction.get_constant bigConstF (Value.integer 7) = .error (.err .Constants) :=
  ⟨(c7_theorem emptyCF (Value.integer 7)).1 rfl (by decide),
   (c7_theorem bigConstF (Value.integer 7)).2.1 rfl
     (by show 65535 < (List.replicate 65536 (Value.integer 0)).length
         rw [List.length_replicate]
         decide)⟩


/-- The level-0 invariant: every upvalue of the top-level function
context is named `_ENV`.  It holds of a fresh compiler and is preserved
by `find_variable` (the only code that appends upvalues). -/
def env0Ok (c : Compiler) : Prop :=
  ∀ p ∈ (getF c 0).upvalues, p.1 = eENV

/-- Reading level 0 after writing level `i` of the function stack. -/
theorem getF_setF_zero (c : Compiler) (i : Nat) (f : CompilerFunction) :
    getF (setF c i f) 0 = if i = 0 then f else getF c 0 := by
  unfold getF setF
  by_cases hi : i = c.upper_functions.length
  · rw [if_pos hi]
    dsimp only
    by_cases hz : 0 = c.upper_functions.length
    · rw [if_pos hz, if_pos (by omega : i = 0)]
    · rw [if_neg hz, if_neg (by omega : ¬ i = 0), if_neg hz]
  · rw [if_neg hi]
    dsimp only
    rw [List.length_set]
    by_cases hz : 0 = c.upper_functions.length
    · rw [if_pos hz, if_neg (by omega : ¬ i = 0), if_pos hz]
    · rw [if_neg hz]
      by_cases h0 : i = 0
      · subst h0
        rw [if_pos rfl, List.get?_set_eq]
        cases hg : c.upper_functions.get? 0 with
        | none =>
          exfalso
          have := List.get?_eq_none.mp hg
          omega
        | some u => simp
      · rw [if_neg h0, List.get?_set_ne _ _ h0, if_neg hz]

/-- Writing a non-zero level preserves the level-0 invariant. -/
theorem env0Ok_setF_pos (c : Compiler) (i : Nat) (f : CompilerFunction)
    (hi : i ≠ 0) (h : env0Ok c) : env0Ok (setF c i f) := by
  unfold env0Ok at h ⊢
  rw [getF_setF_zero, if_neg hi]
  exact h

/-- Writing any level with an upvalue-preserving update keeps the level-0
invariant. -/
theorem env0Ok_setF_same (c : Compiler) (i : Nat) (f : CompilerFunction)
    (hupv : f.upvalues = (getF c i).upvalues) (h : env0Ok c) :
    env0Ok (setF c i f) := by
  unfold env0Ok at h ⊢
  rw [getF_setF_zero]
  by_cases h0 : i = 0
  · subst h0
    rw [if_pos rfl, hupv]
    exact h
  · rw [if_neg h0]
    exact h

/-- Inversion of a bind producing an error. -/
theorem except_bind_eq_error {α β : Type} (x : Except CompilerIssue α)
    (k : α → Except CompilerIssue β) (e : CompilerIssue)
    (h : x.bind k = .error e) : x = .error e ∨ ∃ v, x = .ok v ∧ k v = .error e := by
  cases x with
  | error e2 => simp [Except.bind] at h; simp [h]
  | ok v => simp [Except.bind] at h; exact Or.inr ⟨v, rfl, h⟩

/-- Inversion of a bind producing a success. -/
theorem except_bind_eq_ok {α β : Type} (x : Except CompilerIssue α)
    (k : α → Except CompilerIssue β) (b : β)
    (h : x.bind k = .ok b) : ∃ v, x = .ok v ∧ k v = .ok b := by
  cases x with
  | error e2 => simp [Except.bind] at h
  | ok v => simp [Except.bind] at h; exact ⟨v, rfl, h⟩

/-- The `Outer`-chain construction never crashes and, when applied from
level 1 upward, preserves the level-0 invariant. -/
theorem pushOuterChain_spec : ∀ (cnt : Nat) (name : String) (k u : Nat) (c : Compiler),
    1 ≤ k → env0Ok c →
    (∀ msg, pushOuterChain name cnt k u c ≠ .error (.crash msg)) ∧
    (∀ u2 c2, pushOuterChain name cnt k u c = .ok (u2, c2) → env0Ok c2) := by
  intro cnt
  induction cnt with
  | zero =>
    intro name k u c hk h
    constructor
    · intro msg hcon
      unfold pushOuterChain at hcon
      simp at hcon
    · intro u2 c2 hok
      unfold pushOuterChain at hok
      simp only [Except.ok.injEq, Prod.mk.injEq] at hok
      obtain ⟨_, rfl⟩ := hok
      exact h
  | succ n ih =>
    intro name k u c hk h
    have hc2 : env0Ok (setF c k { getF c k with
        upvalues := (getF c k).upvalues ++ [(name, UpValueDescriptor.Outer u)] }) :=
      env0Ok_setF_pos c k _ (by omega) h
    constructor
    · intro msg hcon
      unfold pushOuterChain at hcon
      dsimp only at hcon
      cases hcast : castU8 (((getF c k).upvalues ++ [(name, UpValueDescriptor.Outer u)]).length - 1) with
      | none => rw [hcast] at hcon; simp at hcon
      | some u3 =>
        rw [hcast] at hcon
        exact (ih name (k + 1) u3 _ (by omega) hc2).1 msg hcon
    · intro u2 c2 hok
      unfold pushOuterChain at hok
      dsimp only at hok
      cases hcast : castU8 (((getF c k).upvalues ++ [(name, UpValueDescriptor.Outer u)]).length - 1) with
      | none => rw [hcast] at hok; exact absurd hok (by simp)
      | some u3 =>
        rw [hcast] at hok
        exact (ih name (k + 1) u3 _ (by omega) hc2).2 u2 c2 hok

/-- The capture path never crashes, preserves the level-0 invariant and
resolves to an upvalue. -/
theorem fvCapture_spec (name : String) (cur i register : Nat) (c : Compiler)
    (h : env0Ok c) :
    (∀ msg, fvCapture name cur i register c ≠ .error (.crash msg)) ∧
    (∀ r c2, fvCapture name cur i register c = .ok (r, c2) →
      env0Ok c2 ∧ ∃ u, r = some (.UpValue u)) := by
  have henv2 : env0Ok (setF (setF c i { getF c i with
      blocks := markUpvalBlocks (getF c i).blocks register }) (i + 1)
      { getF (setF c i { getF c i with
          blocks := markUpvalBlocks (getF c i).blocks register }) (i + 1) with
        upvalues := (getF (setF c i { getF c i with
          blocks := markUpvalBlocks (getF c i).blocks register }) (i + 1)).upvalues ++
          [(name, UpValueDescriptor.ParentLocal register)] }) :=
    env0Ok_setF_pos _ (i + 1) _ (by omega)
      (env0Ok_setF_same c i _ rfl h)
  constructor
  · intro msg hcon
    unfold fvCapture at hcon
    dsimp only at hcon
    split at hcon
    · simp at hcon
    · rcases except_bind_eq_error _ _ _ hcon with hx | ⟨⟨u2, c2⟩, hx, hk⟩
      · exact (pushOuterChain_spec _ name _ _ _ (by omega) henv2).1 msg hx
      · simp at hk
  · intro r c2 hok
    unfold fvCapture at hok
    dsimp only at hok
    split at hok
    · exact absurd hok (by simp)
    · rcases except_bind_eq_ok _ _ _ hok with ⟨⟨u3, c3⟩, hx, hk⟩
      simp only [Except.ok.injEq, Prod.mk.injEq] at hk
      obtain ⟨rfl, rfl⟩ := hk
      exact ⟨(pushOuterChain_spec _ name _ _ _ (by omega) henv2).2 _ _ hx, _, rfl⟩

/-- The upvalue-hit path never crashes, preserves the level-0 invariant
and resolves to an upvalue. -/
theorem fvFromUpvalue_spec (name : String) (cur i j : Nat) (c : Compiler)
    (h : env0Ok c) :
    (∀ msg, fvFromUpvalue name cur i j c ≠ .error (.crash msg)) ∧
    (∀ r c2, fvFromUpvalue name cur i j c = .ok (r, c2) →
      env0Ok c2 ∧ ∃ u, r = some (.UpValue u)) := by
  constructor
  · intro msg hcon
    unfold fvFromUpvalue at hcon
    split at hcon
    · simp at hcon
    · split at hcon
      · simp at hcon
      · rcases except_bind_eq_error _ _ _ hcon with hx | ⟨⟨u2, c2⟩, hx, hk⟩
        · exact (pushOuterChain_spec _ name _ _ _ (by omega) h).1 msg hx
        · simp at hk
  · intro r c2 hok
    unfold fvFromUpvalue at hok
    split at hok
    · exact absurd hok (by simp)
    · split at hok
      · simp only [Except.ok.injEq, Prod.mk.injEq] at hok
        obtain ⟨h1, h2⟩ := hok
        exact ⟨h2 ▸ h, _, h1.symm⟩
      · rcases except_bind_eq_ok _ _ _ hok with ⟨⟨u3, c3⟩, hx, hk⟩
        simp only [Except.ok.injEq, Prod.mk.injEq] at hk
        obtain ⟨rfl, rfl⟩ := hk
        exact ⟨(pushOuterChain_spec _ name _ _ _ (by omega) h).2 _ _ hx, _, rfl⟩

/-- The lazy `_ENV` installation preserves the level-0 invariant. -/
theorem fvInstallEnv_env0 (i : Nat) (name : String) (c : Compiler) (h : env0Ok c) :
    env0Ok (fvInstallEnv i name c) := by
  unfold fvInstallEnv
  split
  · dsimp only
    unfold env0Ok at h ⊢
    rw [getF_setF_zero, if_pos rfl]
    dsimp only
    intro p hp
    rcases List.mem_append.mp hp with h1 | h2
    · exact h p h1
    · simp only [List.mem_singleton] at h2
      rw [h2]
  · exact h

/-- In a nonempty all-`_ENV` upvalue list, `_ENV` is found at index 0. -/
theorem findIdx_head_eENV : ∀ (l : List (String × UpValueDescriptor)),
    l ≠ [] → (∀ p ∈ l, p.1 = eENV) →
    l.findIdx? (fun p => p.1 == eENV) = some 0 := by
  intro l hne hall
  cases l with
  | nil => exact absurd rfl hne
  | cons a as =>
    have ha : a.1 = eENV := hall a (by simp)
    simp [List.findIdx?_cons, ha]

/-- After the lazy installation step at level 0, looking `_ENV` up in the
level-0 upvalues succeeds. -/
theorem fvInstallEnv_finds (c : Compiler) (h : env0Ok c) :
    ((getF (fvInstallEnv 0 eENV c) 0).upvalues).findIdx? (fun p => p.1 == eENV) = some 0 := by
  unfold fvInstallEnv
  split
  · rename_i hcond
    dsimp only
    rw [getF_setF_zero, if_pos rfl]
    dsimp only
    have hemp : (getF c 0).upvalues = [] := by
      simp at hcond
      exact hcond
    rw [hemp]
    simp [List.findIdx?_cons]
  · rename_i hcond
    have hne : ¬ (getF c 0).upvalues.isEmpty = true := by
      intro hemp
      exact hcond (by simp [hemp])
    apply findIdx_head_eENV
    · intro hnil
      exact hne (by simp [hnil])
    · exact h

/-- One resolution level never crashes; on success it preserves the
level-0 invariant, never resolves to a `Global` directly, and at level 0
an `_ENV` lookup never falls through. -/
theorem fvStep_spec : ∀ (name : String) (cur i : Nat) (c : Compiler), env0Ok c →
    (∀ msg, fvStep name cur i c ≠ .error (.crash msg)) ∧
    (∀ r c2, fvStep name cur i c = .ok (r, c2) →
      env0Ok c2 ∧ (∀ n, r ≠ some (.Global n)) ∧ (i = 0 → name = eENV → r ≠ none)) := by
  intro name cur i c h
  have hins : env0Ok (fvInstallEnv i name c) := fvInstallEnv_env0 i name c h
  constructor
  · intro msg hcon
    unfold fvStep at hcon
    dsimp only at hcon
    split at hcon
    · split at hcon
      · simp at hcon
      · exact (fvCapture_spec name cur i _ c h).1 msg hcon
    · split at hcon
      · exact (fvFromUpvalue_spec name cur i _ _ hins).1 msg hcon
      · simp at hcon
  · intro r c2 hok
    unfold fvStep at hok
    dsimp only at hok
    split at hok
    · split at hok
      · simp only [Except.ok.injEq, Prod.mk.injEq] at hok
        obtain ⟨h1, h2⟩ := hok
        refine ⟨h2 ▸ h, ?_, ?_⟩
        · intro n hcontra
          rw [← h1] at hcontra
          simp at hcontra
        · intro _ _ hnone
          rw [← h1] at hnone
          simp at hnone
      · obtain ⟨henv, u, hr⟩ := (fvCapture_spec name cur i _ c h).2 r c2 hok
        subst hr
        exact ⟨henv, by simp, by simp⟩
    · split at hok
      · obtain ⟨henv, u, hr⟩ := (fvFromUpvalue_spec name cur i _ _ hins).2 r c2 hok
        subst hr
        exact ⟨henv, by simp, by simp⟩
      · rename_i hidx
        simp only [Except.ok.injEq, Prod.mk.injEq] at hok
        obtain ⟨h1, h2⟩ := hok
        refine ⟨h2 ▸ hins, ?_, ?_⟩
        · intro n hcontra
          rw [← h1] at hcontra
          simp at hcontra
        · intro hi0 hname
          subst hi0
          subst hname
          exfalso
          rw [fvInstallEnv_finds c h] at hidx
          exact Option.noConfusion hidx

/-- The outward resolution loop never crashes; on success it preserves
the level-0 invariant and never resolves `_ENV` to a global. -/
theorem fvLoop_spec : ∀ (i : Nat) (name : String) (cur : Nat) (c : Compiler), env0Ok c →
    (∀ msg, fvLoop name cur i c ≠ .error (.crash msg)) ∧
    (∀ d c2, fvLoop name cur i c = .ok (d, c2) →
      env0Ok c2 ∧ (name = eENV → ∀ n, d ≠ .Global n)) := by
  intro i
  induction i with
  | zero =>
    intro name cur c h
    constructor
    · intro msg hcon
      unfold fvLoop at hcon
      rcases except_bind_eq_error _ _ _ hcon with hx | ⟨⟨r, c3⟩, hx, hk⟩
      · exact (fvStep_spec name cur 0 c h).1 msg hx
      · cases r <;> simp at hk
    · intro d c2 hok
      unfold fvLoop at hok
      rcases except_bind_eq_ok _ _ _ hok with ⟨⟨r, c3⟩, hx, hk⟩
      obtain ⟨henv, hng, hnn⟩ := (fvStep_spec name cur 0 c h).2 r c3 hx
      cases r with
      | some d2 =>
        simp only [Except.ok.injEq, Prod.mk.injEq] at hk
        obtain ⟨h1, h2⟩ := hk
        subst h1
        refine ⟨h2 ▸ henv, ?_⟩
        intro _ n hc
        exact hng n (by rw [hc])
      | none =>
        simp only [Except.ok.injEq, Prod.mk.injEq] at hk
        obtain ⟨h1, h2⟩ := hk
        refine ⟨h2 ▸ henv, ?_⟩
        intro hname
        exact absurd rfl (hnn rfl hname)
  | succ n ih =>
    intro name cur c h
    constructor
    · intro msg hcon
      unfold fvLoop at hcon
      rcases except_bind_eq_error _ _ _ hcon with hx | ⟨⟨r, c3⟩, hx, hk⟩
      · exact (fvStep_spec name cur (n + 1) c h).1 msg hx
      · obtain ⟨henv, hng, hnn⟩ := (fvStep_spec name cur (n + 1) c h).2 r c3 hx
        cases r with
        | some d2 => simp at hk
        | none => exact (ih name cur c3 henv).1 msg hk
    · intro d c2 hok
      unfold fvLoop at hok
      rcases except_bind_eq_ok _ _ _ hok with ⟨⟨r, c3⟩, hx, hk⟩
      obtain ⟨henv, hng, hnn⟩ := (fvStep_spec name cur (n + 1) c h).2 r c3 hx
      cases r with
      | some d2 =>
        simp only [Except.ok.injEq, Prod.mk.injEq] at hk
        obtain ⟨h1, h2⟩ := hk
        subst h1
        refine ⟨h2 ▸ henv, ?_⟩
        intro _ m hc
        exact hng m (by rw [hc])
      | none => exact (ih name cur c3 henv).2 d c2 hk

/-- C10: under the level-0 invariant (which holds of every reachable
state, the invariant being preserved by the only upvalue-appending code
paths), `find_variable` applied to `_ENV` never returns a `Global`
descriptor, so `get_environment` never reaches its `unreachable!` branch
(modelled as the crash outcome); and `find_variable` preserves the
invariant for any name. -/
theorem c10_theorem : ∀ c : Compiler, env0Ok c →
    (∀ n c2, find_variable eENV c ≠ .ok (.Global n, c2)) ∧
    (∀ msg, get_environment c ≠ .error (.crash msg)) ∧
    (∀ (name : String) d c2, find_variable name c = .ok (d, c2) → env0Ok c2) := by
  intro c h
  refine ⟨?_, ?_, ?_⟩
  · intro n c2 hcon
    unfold find_variable at hcon
    exact absurd rfl (((fvLoop_spec _ eENV _ c h).2 _ _ hcon).2 rfl n)
  · intro msg hcon
    unfold get_environment at hcon
    rcases except_bind_eq_error _ _ _ hcon with hx | ⟨⟨d, c2⟩, hx, hk⟩
    · unfold find_variable at hx
      exact (fvLoop_spec _ eENV _ c h).1 msg hx
    · cases d with
      | Local r => simp at hk
      | UpValue u => simp at hk
      | Global nm =>
        unfold find_variable at hx
        exact absurd rfl (((fvLoop_spec _ eENV _ c h).2 _ _ hx).2 rfl nm)
  · intro name d c2 hok
    unfold find_variable at hok
    exact ((fvLoop_spec _ name _ c h).2 d c2 hok).1

/-- Witness for C10 at the fresh top-level compiler state. -/
theorem c10_witness :
    get_environment initialC ≠ .error (.crash "there should always be an ENV upvalue") :=
  (c10_theorem initialC (by intro p hp; simp [env0Ok, getF, initialC] at hp)).2.1
    "there should always be an ENV upvalue"


end Luster
